import Mathlib

/-!
# scala-beast: scheduler and HTTP session

A shallow embedding of

* `asio/round_robin.hpp` : the fiber scheduling algorithm `round_robin`
  (ready queue, ready counter, wake-up timer), and
* `httpserver.cpp` : `http_session` (response construction, method dispatch,
  write completion),

followed by the properties established about them.

Conventions.  A `std::string` / `string_view` is a Lean `String` with one
`Char` per C++ `char`, so `String.length` is `size()`.  `std::size_t` values
are natural numbers reduced modulo `2 ^ 64` wherever the source increments or
decrements them.  A function that can raise a C++ exception returns
`Except String _`, the string being the `what()` text.  What a session does to
the outside (calls of the handler, operations started on the socket) is kept as
a list of effects, in program order.
-/

namespace round_robin

/-! ## `round_robin`: ready queue and counter -/

/-- Modulus of `std::size_t` arithmetic (and bound of a pointer value). -/
def SIZE_MODULUS : Nat := 2 ^ 64

/-- What the scheduler sees of a `boost::fibers::context *`: the pointer value
and the answer of `is_context(type::dispatcher_context)`. -/
structure context where
  addr : Nat
  is_dispatcher : Bool
deriving DecidableEq, Repr

/-- The data members `rqueue_` and `counter_` of `round_robin`. -/
structure sched where
  rqueue_ : List context
  counter_ : Nat
deriving DecidableEq, Repr

/-- State of a freshly constructed `round_robin`: `rqueue_{}`, `counter_{0}`. -/
def sched.init : sched := { rqueue_ := [], counter_ := 0 }

/-- The test `ctx->ready_is_linked()`: the context is linked in the ready queue. -/
def ready_is_linked (s : sched) (ctx : context) : Bool :=
  s.rqueue_.any (fun c => c.addr == ctx.addr)

/-- Body of `round_robin::awakened`: `ready_link` appends at the tail of the
intrusive list, and `++counter_` runs unless the context is the dispatcher. -/
def awakened (s : sched) (ctx : context) : sched :=
  { rqueue_ := s.rqueue_ ++ [ctx],
    counter_ := if !ctx.is_dispatcher then (s.counter_ + 1) % SIZE_MODULUS else s.counter_ }

/-- Body of `round_robin::pick_next`: pops the front of the ready queue when it
is not empty, `--counter_` unless the popped context is the dispatcher; returns
the popped context (`none` for `nullptr`). -/
def pick_next (s : sched) : Option context × sched :=
  match s.rqueue_ with
  | [] => (none, s)
  | ctx :: rest =>
    (some ctx,
     { rqueue_ := rest,
       counter_ :=
         if !ctx.is_dispatcher then (s.counter_ + SIZE_MODULUS - 1) % SIZE_MODULUS
         else s.counter_ })

/-- Body of `round_robin::has_ready_fibers`. -/
def has_ready_fibers (s : sched) : Bool := decide (0 < s.counter_)

/-- The two queue operations the fiber manager calls on the algorithm. -/
inductive call where
  | awakened (ctx : context)
  | pick_next
deriving DecidableEq, Repr

/-- State after one call. -/
def step (s : sched) : call → sched
  | .awakened ctx => awakened s ctx
  | .pick_next => (pick_next s).2

/-- State after a sequence of calls, first call first. -/
def run (s : sched) (cs : List call) : sched := cs.foldl step s

/-- The assertions at the head of `awakened` hold at every call of the sequence:
the pointer is not null (and is a pointer value), and the context is not
linked in the ready queue at the time of the call. -/
def admissible (s : sched) : List call → Bool
  | [] => true
  | .awakened ctx :: cs =>
    decide (0 < ctx.addr) && decide (ctx.addr < SIZE_MODULUS) && !ready_is_linked s ctx
      && admissible (awakened s ctx) cs
  | .pick_next :: cs => admissible (pick_next s).2 cs

/-- Number of contexts of a queue that are not the dispatcher context. -/
def ready_count (q : List context) : Nat := q.countP (fun c => !c.is_dispatcher)

/-- Repeated `pick_next`: the contexts returned by `n` successive calls and the
state after them. -/
def pick_n : Nat → sched → List (Option context) × sched
  | 0, s => ([], s)
  | n + 1, s =>
    let r := pick_next s
    let rs := pick_n n r.2
    (r.1 :: rs.1, rs.2)

/-- Successive `awakened` calls on the contexts of a list, in list order. -/
def awaken_all (s : sched) (ts : List context) : sched := ts.foldl awakened s

/-- Well-formed scheduler state: the queued contexts are distinct non-null
pointers and the counter agrees with the queue. -/
structure sched.wf (s : sched) : Prop where
  nodup : (s.rqueue_.map context.addr).Nodup
  bound : ∀ c ∈ s.rqueue_, 0 < c.addr ∧ c.addr < SIZE_MODULUS
  count : s.counter_ = ready_count s.rqueue_

/-! ## `round_robin`: the wake-up timer

`suspend_timer_` is a `boost::asio::steady_timer`.  Every wait registered by the
scheduler carries the same completion handler (`this_fiber::yield()`), so a
timer is described by its expiry time and by how many waits are pending and how
many handlers have been released with `operation_aborted`. -/

/-- A `std::chrono::steady_clock::time_point`, counted in clock ticks. -/
abbrev time_point := Nat

/-- The value `(std::chrono::steady_clock::time_point::max)()`: the largest
value of the signed 64-bit tick count. -/
def time_point_max : time_point := 2 ^ 63 - 1

/-- Boost.Asio `steady_timer` (library type): its expiry time, the number of
pending `async_wait` operations, and the number of handlers already handed to
the `io_context` with `operation_aborted`. -/
structure steady_timer where
  expiry : time_point
  pending : Nat
  aborted : Nat
deriving DecidableEq, Repr

/-- Boost.Asio `steady_timer::expires_at(t)` (library behaviour): every pending
wait is cancelled, its handler is released with `operation_aborted`, and the
expiry time becomes `t`. -/
def steady_timer.expires_at (t : steady_timer) (abs_time : time_point) : steady_timer :=
  { expiry := abs_time, pending := 0, aborted := t.aborted + t.pending }

/-- Boost.Asio `steady_timer::async_wait(handler)` (library behaviour): one more
wait is pending on the timer. -/
def steady_timer.async_wait (t : steady_timer) : steady_timer :=
  { t with pending := t.pending + 1 }

/-- The members `suspend_timer_` and `cnd_` of `round_robin`; of the condition
variable only the number of `notify_one` calls made so far is kept. -/
structure waker where
  suspend_timer_ : steady_timer
  cnd_notified : Nat
deriving DecidableEq, Repr

/-- Body of `round_robin::suspend_until`: unless `abs_time` is
`time_point::max`, `expires_at(abs_time)` then `async_wait`; in every case
`cnd_.notify_one()`. -/
def suspend_until (w : waker) (abs_time : time_point) : waker :=
  { suspend_timer_ :=
      if time_point_max ≠ abs_time then (w.suspend_timer_.expires_at abs_time).async_wait
      else w.suspend_timer_,
    cnd_notified := w.cnd_notified + 1 }

/-- Body of `round_robin::notify`, called at clock reading `now`: `async_wait`
then `expires_at(steady_clock::now())`. -/
def notify (w : waker) (now : time_point) : waker :=
  { w with suspend_timer_ := w.suspend_timer_.async_wait.expires_at now }

/-- The timer is armed for the deadline `d`: its expiry time is `d` and a wait
is pending on it. -/
def armed_for (w : waker) (d : time_point) : Prop :=
  w.suspend_timer_.expiry = d ∧ 0 < w.suspend_timer_.pending

instance (w : waker) (d : time_point) : Decidable (armed_for w d) := by
  unfold armed_for; infer_instance

end round_robin

namespace http

/-! ## Boost.Beast message model

The session builds its responses with Boost.Beast.  The library is not part of
the repository; the definitions of this section restate the behaviour of the
library operations the session calls (`basic_fields::set`, `message::keep_alive`,
`message::content_length`, `message::prepare_payload`, ...).  Limits on the
size of a header field are left out. -/

/-- Boost.Beast `http::verb`: the request methods the parser recognises;
`unknown` stands for every other method string. -/
inductive verb where
  | unknown | delete_ | get | head | post | put | connect | options | trace
  | copy | lock | mkcol | move | propfind | proppatch | search | unlock
  | bind | rebind | unbind | acl | report | mkactivity | checkout | merge
  | msearch | notify | subscribe | unsubscribe | patch | purge | mkcalendar
  | link | unlink
deriving DecidableEq, Repr

/-- Boost.Beast `detail::ascii_tolower` on every character of a string. -/
def lower (s : String) : List Char := s.data.map Char.toLower

/-- Boost.Beast `beast::iequals`: equality of strings up to ASCII letter case. -/
def iequals (a b : String) : Bool := lower a == lower b

/-- The test `empty()` of a string or string view. -/
def empty (s : String) : Bool := s.data.isEmpty

/-- Optional white space of a header value: space and horizontal tab. -/
def is_ows (c : Char) : Bool := c == ' ' || c == '\t'

/-- Boost.Beast `detail::skip_ows`: drops leading spaces and tabs. -/
def skip_ows (s : List Char) : List Char := s.dropWhile is_ows

/-- Boost.Beast `detail::trim`: drops spaces and tabs at both ends. -/
def trim (s : String) : String :=
  ⟨((skip_ows s.data).reverse.dropWhile is_ows).reverse⟩

/-- Boost.Beast `detail::is_token_char`: the `tchar` set of RFC 7230. -/
def is_token_char (c : Char) : Bool :=
  c.isAlphanum || "!#$%&'*+-.^_`|~".data.contains c

/-- The loop of Boost.Beast `token_list::const_iterator::increment`, repeated
until the iteration ends: the tokens read from `s` according to the grammar
`*( "," OWS ) token *( OWS "," [ OWS token ] )`, up to the first position that
does not fit it.  `need_comma` is set after a token has been read.  Every
round consumes at least one character, `fuel` bounds the number of rounds. -/
def token_list.go : Nat → Bool → List Char → List String
  | 0, _, _ => []
  | fuel + 1, need_comma, s =>
    match skip_ows s with
    | [] => []
    | c :: rest =>
      if is_token_char c then
        if need_comma then []
        else ⟨c :: rest.takeWhile is_token_char⟩
               :: token_list.go fuel true (rest.dropWhile is_token_char)
      else if c = ',' then token_list.go fuel false rest
      else []

/-- Boost.Beast `token_list{value}`: the tokens the iteration yields. -/
def token_list (value : String) : List String :=
  token_list.go (value.length + 1) false value.data

/-- A non-empty string of token characters. -/
def valid_token (t : String) : Prop := t.data ≠ [] ∧ ∀ c ∈ t.data, is_token_char c = true

/-- Boost.Beast `token_list::exists`: some token equals `s` up to case. -/
def token_list.exists_ (value : String) (s : String) : Bool :=
  (token_list value).any (fun v => iequals s v)

/-- The string built by successive `append` calls with `", "` between tokens. -/
def join_tokens : List String → String
  | [] => ""
  | [t] => t
  | t :: ts => t ++ ", " ++ join_tokens ts

/-- Boost.Beast `detail::filter_token_list` on an empty output string: the
tokens of `value` that `pred` rejects, joined by `", "`. -/
def filter_token_list (value : String) (pred : String → Bool) : String :=
  join_tokens ((token_list value).filter (fun t => !pred t))

/-- Boost.Beast `detail::filter_token_list_last` on an empty output string: as
`filter_token_list`, but only the last token is tested. -/
def filter_token_list_last (value : String) (pred : String → Bool) : String :=
  match (token_list value).getLast? with
  | none => ""
  | some t =>
    if pred t then join_tokens (token_list value).dropLast
    else join_tokens (token_list value)

/-- Boost.Beast `detail::keep_alive_impl`: the new value of the `Connection`
field computed from its current value.  (Where the library predicate is given
one name and an empty second one, only the name is tested: no token is empty.) -/
def keep_alive_impl (value : String) (version : Nat) (keep_alive : Bool) : String :=
  if version < 11 then
    if keep_alive then
      let s := filter_token_list value (fun t => iequals t "close")
      if empty s then "keep-alive"
      else if !token_list.exists_ value "keep-alive" then s ++ ", keep-alive"
      else s
    else
      filter_token_list value (fun t => iequals t "close" || iequals t "keep-alive")
  else
    if keep_alive then
      filter_token_list value (fun t => iequals t "close" || iequals t "keep-alive")
    else
      let s := filter_token_list value (fun t => iequals t "keep-alive")
      if empty s then "close"
      else if !token_list.exists_ value "close" then s ++ ", close"
      else s

/-- Boost.Beast `http::basic_fields`: the header fields in list order
(`list_`), each a name and a value. -/
structure basic_fields where
  list_ : List (String × String)
deriving DecidableEq, Repr

/-- Boost.Beast `basic_fields::find`: the first field whose name equals `name`
up to case. -/
def basic_fields.find (f : basic_fields) (name : String) : Option String :=
  (f.list_.find? (fun kv => iequals kv.1 name)).map Prod.snd

/-- Boost.Beast `basic_fields::operator[]`: the value found, or the empty string. -/
def basic_fields.at (f : basic_fields) (name : String) : String :=
  (f.find name).getD ""

/-- Boost.Beast `basic_fields::erase(name)`: removes every field of that name. -/
def basic_fields.erase (f : basic_fields) (name : String) : basic_fields :=
  ⟨f.list_.filter (fun kv => !iequals kv.1 name)⟩

/-- Boost.Beast `basic_fields::set(name, value)`: removes every field of that
name and appends one field holding the trimmed value. -/
def basic_fields.set (f : basic_fields) (name value : String) : basic_fields :=
  ⟨(f.erase name).list_ ++ [(name, trim value)]⟩

/-- Boost.Beast `basic_fields::set_content_length_impl`. -/
def basic_fields.set_content_length_impl (f : basic_fields) : Option Nat → basic_fields
  | none => f.erase "Content-Length"
  | some n => f.set "Content-Length" (Nat.repr n)

/-- Boost.Beast `basic_fields::set_chunked_impl(false)`: removes a final
`chunked` token from `Transfer-Encoding`. -/
def basic_fields.clear_chunked (f : basic_fields) : basic_fields :=
  match f.find "Transfer-Encoding" with
  | none => f
  | some v =>
    let buf := filter_token_list_last v (fun t => iequals t "chunked")
    if !empty buf then f.set "Transfer-Encoding" buf else f.erase "Transfer-Encoding"

/-- Boost.Beast `basic_fields::set_keep_alive_impl`. -/
def basic_fields.set_keep_alive_impl (f : basic_fields) (version : Nat) (keep_alive : Bool) :
    basic_fields :=
  let s := keep_alive_impl (f.at "Connection") version keep_alive
  if empty s then f.erase "Connection" else f.set "Connection" s

/-- Boost.Beast `basic_fields::get_keep_alive_impl`. -/
def basic_fields.get_keep_alive_impl (f : basic_fields) (version : Nat) : Bool :=
  match f.find "Connection" with
  | none => decide (¬ version < 11)
  | some v =>
    if version < 11 then token_list.exists_ v "keep-alive"
    else !token_list.exists_ v "close"

/-- Boost.Beast `http::request<http::string_body>` as the parser delivers it.
The parser accepts the versions 10 (HTTP/1.0) and 11 (HTTP/1.1) only. -/
structure request where
  method : verb
  target : String
  version : Nat
  base : basic_fields
  body : String
deriving DecidableEq, Repr

/-- Boost.Beast `message::keep_alive()` of a request. -/
def request.keep_alive (req : request) : Bool :=
  req.base.get_keep_alive_impl req.version

/-- The body type of a response: `http::empty_body` or `http::string_body`. -/
inductive body_type where
  | empty_body
  | string_body
deriving DecidableEq, Repr

/-- Boost.Beast `http::response<Body>`: the status as stored (`result_int()`),
the version, the header fields and the body (`""` for `empty_body`). -/
structure response where
  kind : body_type
  result_ : Nat
  version : Nat
  base : basic_fields
  body : String
deriving DecidableEq, Repr

/-- The conversion `static_cast<http::status>(status)` of an `int`: `http::status`
has underlying type `unsigned`. -/
def to_status (status : Int) : Nat := (status % 2 ^ 32).toNat

/-- The status codes Boost.Beast names in `enum class status`. -/
def known_status : List Nat :=
  [100, 101, 102, 103,
   200, 201, 202, 203, 204, 205, 206, 207, 208, 226,
   300, 301, 302, 303, 304, 305, 307, 308,
   400, 401, 402, 403, 404, 405, 406, 407, 408, 409, 410, 411, 412, 413, 414, 415,
   416, 417, 421, 422, 423, 424, 426, 428, 429, 431, 444, 451, 499,
   500, 501, 502, 503, 504, 505, 506, 507, 508, 510, 511, 599]

/-- Boost.Beast `int_to_status`: a named code is kept, any other becomes
`status::unknown` (0). -/
def int_to_status (v : Nat) : Nat := if v ∈ known_status then v else 0

/-- Boost.Beast `message::result()`. -/
def response.result (m : response) : Nat := int_to_status m.result_

/-- The constructor `http::response<Body>{status, version}`: no field, empty body. -/
def response.mk_ (kind : body_type) (status : Nat) (version : Nat) : response :=
  { kind := kind, result_ := status, version := version, base := ⟨[]⟩, body := "" }

/-- Boost.Beast `message::set(name, value)`, inherited from the fields. -/
def response.set (m : response) (name value : String) : response :=
  { m with base := m.base.set name value }

/-- Boost.Beast `message::content_length(n)`: `set_content_length_impl(n)`
followed by `set_chunked_impl(false)`. -/
def response.content_length (m : response) (n : Option Nat) : response :=
  { m with base := (m.base.set_content_length_impl n).clear_chunked }

/-- Boost.Beast `message::keep_alive(value)` (the setter). -/
def response.set_keep_alive (m : response) (value : Bool) : response :=
  { m with base := m.base.set_keep_alive_impl m.version value }

/-- Boost.Beast `message::keep_alive()` (the getter). -/
def response.keep_alive (m : response) : Bool := m.base.get_keep_alive_impl m.version

/-- Boost.Beast `message::payload_size()`: `Body::size(body())`, which is 0 for
`empty_body` and the length of the string for `string_body`. -/
def response.payload_size (m : response) : Nat :=
  match m.kind with
  | .empty_body => 0
  | .string_body => m.body.length

/-- Boost.Beast `message::prepare_payload()` of a response whose body has a
known size: raises `std::invalid_argument` when the body is not empty and the
status is informational, 204 or 304; otherwise sets `Content-Length` to the
payload size. -/
def response.prepare_payload (m : response) : Except String response :=
  if 0 < m.payload_size ∧ (m.result / 100 = 1 ∨ m.result = 204 ∨ m.result = 304) then
    .error "invalid response body"
  else
    .ok (m.content_length (some m.payload_size))

end http

namespace httpserver

open http

/-! ## `http_handler` and `http_session` -/

/-- The container `httpserver::headers` (declared in `http_handler.h`): the
name/value pairs in the order its iteration yields them. -/
abbrev headers := List (String × String)

/-- The argument `headers_access`: a call returning the request headers. -/
abbrev headers_access := Unit → headers

/-- Result shape `(status, headers, body, content_type)` shared by
`http_handler::options_r`, `get_r`, `post_r` and `delete_r`. -/
structure body_r where
  status : Int
  headers : Option headers
  body : String
  content_type : String
deriving DecidableEq, Repr

/-- The type `http_handler::options_r`. -/
abbrev options_r := body_r
/-- The type `http_handler::get_r`. -/
abbrev get_r := body_r
/-- The type `http_handler::post_r`. -/
abbrev post_r := body_r
/-- The type `http_handler::delete_r`. -/
abbrev delete_r := body_r

/-- The type `http_handler::head_r`: `(status, headers, size, content_type)`. -/
structure head_r where
  status : Int
  headers : Option headers
  size : Nat
  content_type : String
deriving DecidableEq, Repr

/-- The type `http_handler::put_r`: `(status, headers)`. -/
structure put_r where
  status : Int
  headers : Option headers
deriving DecidableEq, Repr

/-- What a call of `http_handler::async_get` does: the results it passes to the
callback while it runs, in call order, and the exception it raises after them,
if it raises one (a callback kept for later runs `send_body` in the same way,
outside `handle_request`). -/
structure async_r where
  results : List get_r
  raised : Option String
deriving DecidableEq, Repr

/-- The abstract class `http_handler`, with the member functions the session
calls.  An operation either returns its result or raises an exception, kept as
its `what()` text; `async_get` returns nothing, it may call the callback any
number of times and then return or raise. -/
structure http_handler where
  use_async : Bool
  options : String → String → headers_access → Except String options_r
  head : String → headers_access → Except String head_r
  get : String → headers_access → Except String get_r
  async_get : String → headers_access → async_r
  post : String → String → headers_access → Except String post_r
  put : String → String → headers_access → Except String put_r
  delete_ : String → String → headers_access → Except String delete_r

/-- A call of a member function of the handler, with the target and body passed. -/
inductive handler_call where
  | use_async
  | options (target body : String)
  | head (target : String)
  | get (target : String)
  | async_get (target : String)
  | post (target body : String)
  | put (target body : String)
  | delete_ (target body : String)
deriving DecidableEq, Repr

/-- A `beast::error_code` as the session tests it. -/
inductive error_code where
  | success
  | end_of_stream
  | operation_aborted
  | timeout
  | connection_reset
  | other (message : String)
deriving DecidableEq, Repr

/-- What the session does to the outside: calls of the handler, operations
started on the stream, and text written to `std::cerr`. -/
inductive effect where
  | handler (c : handler_call)
  | expires_after (seconds : Nat)
  | async_read
  | async_write (msg : response) (keep_alive : Bool)
  | shutdown_send
  | cerr (what : String) (ec : error_code)
deriving DecidableEq, Repr

/-- The members of `http_session` the request path reads: the handler, the
request `req_`, and the value of the macro `BOOST_BEAST_VERSION_STRING`. -/
structure http_session where
  http_handler_ : http_handler
  req_ : request
  version_string : String

/-- The class `http_handler_mock` of `httpserver.cpp`. -/
def http_handler_mock : http_handler :=
  { use_async := true
    options := fun _ _ _ => .ok ⟨404, some [], "", ""⟩
    head := fun _ _ => .ok ⟨404, some [], 0, ""⟩
    get := fun _ _ => .ok ⟨200, some [], "", ""⟩
    async_get := fun _ _ => ⟨[⟨200, some [], "", ""⟩], none⟩
    post := fun _ _ _ => .ok ⟨404, some [], "", ""⟩
    put := fun _ _ _ => .ok ⟨404, some []⟩
    delete_ := fun _ _ _ => .ok ⟨404, some [], "", ""⟩ }

/-- Result of running a member function: the effects in order, and the
exception that left the function, if one did. -/
structure outcome where
  effects : List effect
  raised : Option String
deriving DecidableEq, Repr

/-- Body of `http_session::start`: `expires_after(30 s)` then `async_read` bound
to `on_read`. -/
def start : List effect := [.expires_after 30, .async_read]

/-- Body of `http_session::fail`. -/
def fail (ec : error_code) (what : String) : List effect :=
  if ec = .operation_aborted ∨ ec = .timeout ∨ ec = .connection_reset then []
  else [.cerr what ec]

/-- Body of `http_session::do_close`: `shutdown(shutdown_send)`. -/
def do_close : List effect := [.shutdown_send]

/-- Body of `http_session::on_write`. -/
def on_write (keep_alive : Bool) (ec : error_code) : List effect :=
  if ec ≠ .success then fail ec "write"
  else if !keep_alive then do_close
  else []

/-- Body of `http_session::send_response`: `async_write` of the message, with
`on_write` bound to `msg.keep_alive()`. -/
def send_response (msg : response) : List effect := [.async_write msg msg.keep_alive]

/-- Body of `http_session::bad_request`. -/
def bad_request (s : http_session) (why : String) : Except String response :=
  let res := response.mk_ .string_body 400 s.req_.version
  let res := res.set "Server" s.version_string
  let res := res.set "Content-Type" "text/plain"
  let res := res.set_keep_alive s.req_.keep_alive
  let res := { res with body := why }
  res.prepare_payload

/-- Body of `http_session::not_found`. -/
def not_found (s : http_session) (target : String) : Except String response :=
  let res := response.mk_ .string_body 404 s.req_.version
  let res := res.set "Server" s.version_string
  let res := res.set "Content-Type" "text/plain"
  let res := res.set_keep_alive s.req_.keep_alive
  let res := { res with body := "The resource '" ++ target ++ "' was not found." }
  res.prepare_payload

/-- Body of `http_session::server_error`. -/
def server_error (s : http_session) (what : String) : Except String response :=
  let res := response.mk_ .string_body 500 s.req_.version
  let res := res.set "Server" s.version_string
  let res := res.set "Content-Type" "text/plain"
  let res := res.set_keep_alive s.req_.keep_alive
  let res := { res with body := "An error occurred: '" ++ what ++ "'" }
  res.prepare_payload

/-- The loop `for (auto& kv : *headers) res.base().set(kv.first, kv.second)`. -/
def set_headers (res : response) : Option headers → response
  | none => res
  | some hs => hs.foldl (fun r kv => r.set kv.1 kv.2) res

/-- The response `http_session::send_no_content` passes to `send_response`. -/
def send_no_content.res (s : http_session) (status : Int) (hs : Option headers) :
    Except String response :=
  let res := response.mk_ .empty_body (to_status status) s.req_.version
  let res := res.set "Server" s.version_string
  let res := set_headers res hs
  let res := res.set_keep_alive s.req_.keep_alive
  res.prepare_payload

/-- Body of `http_session::send_no_content`. -/
def send_no_content (s : http_session) (status : Int) (hs : Option headers) :
    Except String (List effect) :=
  (send_no_content.res s status hs).map send_response

/-- The response `http_session::send_empty` passes to `send_response`. -/
def send_empty.res (s : http_session) (status : Int) (hs : Option headers)
    (content_size : Nat) (content_type : String) : Except String response :=
  let res := response.mk_ .empty_body (to_status status) s.req_.version
  let res := res.set "Server" s.version_string
  let res := res.set "Content-Type" content_type
  let res := res.content_length (some content_size)
  let res := set_headers res hs
  let res := res.set_keep_alive s.req_.keep_alive
  res.prepare_payload

/-- Body of `http_session::send_empty`. -/
def send_empty (s : http_session) (status : Int) (hs : Option headers)
    (content_size : Nat) (content_type : String) : Except String (List effect) :=
  (send_empty.res s status hs content_size content_type).map send_response

/-- The response `http_session::send_body` passes to `send_response`. -/
def send_body.res (s : http_session) (status : Int) (hs : Option headers)
    (body content_type : String) : Except String response :=
  let res := response.mk_ .string_body (to_status status) s.req_.version
  let res := res.set "Server" s.version_string
  let res := res.set "Content-Type" (if empty content_type then "text/plain" else content_type)
  let res := res.content_length (some body.length)
  let res := set_headers res hs
  let res := { res with body := body }
  let res := res.set_keep_alive s.req_.keep_alive
  res.prepare_payload

/-- Body of `http_session::send_body`. -/
def send_body (s : http_session) (status : Int) (hs : Option headers)
    (body content_type : String) : Except String (List effect) :=
  (send_body.res s status hs body content_type).map send_response

/-- The call `string_view::find(pat)`: the first position at which `pat` occurs
in `s`, `none` for `npos`. -/
def find (s pat : List Char) : Option Nat :=
  if pat.isPrefixOf s then some 0
  else match s with
    | [] => none
    | _ :: t => (find t pat).map (· + 1)

/-- The lambda `get_headers` of `handle_request`: one pair per request field. -/
def get_headers (req : request) : headers_access := fun _ => req.base.list_

/-- Effects so far, followed by the result of a sending function. -/
def outcome.after (calls : List effect) : Except String (List effect) → outcome
  | .ok es => ⟨calls ++ es, none⟩
  | .error m => ⟨calls, some m⟩

/-- The callback given to `async_get`, run on each result in turn; an exception
leaving `send_body` leaves the callback and then `async_get`, and ends the
run. -/
def run_callbacks (s : http_session) (calls : List effect) : List get_r → outcome
  | [] => ⟨calls, none⟩
  | r :: rs =>
    match send_body s r.status r.headers r.body r.content_type with
    | .ok es => run_callbacks s (calls ++ es) rs
    | .error m => ⟨calls, some m⟩

/-- The call `http_handler_->async_get(target, get_headers, callback)` of
`handle_request`, after `use_async()`: the callback runs on the results in
turn; the exception that leaves the call is that of a callback, if one raised,
and otherwise that of `async_get` itself, if it raised after the callbacks. -/
def call_async_get (s : http_session) : outcome :=
  let a := s.http_handler_.async_get s.req_.target (get_headers s.req_)
  let o := run_callbacks s [.handler .use_async, .handler (.async_get s.req_.target)] a.results
  ⟨o.effects,
    match o.raised with
    | some m => some m
    | none => a.raised⟩

/-- Body of `http_session::handle_request`, on the request `req_`. -/
def handle_request (s : http_session) : outcome :=
  let req := s.req_
  let h := s.http_handler_
  if req.method ≠ .get ∧ req.method ≠ .head ∧ req.method ≠ .post ∧ req.method ≠ .put
      ∧ req.method ≠ .delete_ ∧ req.method ≠ .options then
    outcome.after [] ((bad_request s "Unknown HTTP-method").map send_response)
  else if empty req.target ∨ req.target.data.head? ≠ some '/'
      ∨ find req.target.data "..".data ≠ none then
    outcome.after [] ((bad_request s "Illegal request-target").map send_response)
  else if req.method = .options then
    match h.options req.target req.body (get_headers req) with
    | .error m => ⟨[.handler (.options req.target req.body)], some m⟩
    | .ok r =>
      outcome.after [.handler (.options req.target req.body)]
        (send_body s r.status r.headers r.body r.content_type)
  else if req.method = .head then
    match h.head req.target (get_headers req) with
    | .error m => ⟨[.handler (.head req.target)], some m⟩
    | .ok r =>
      outcome.after [.handler (.head req.target)]
        (send_empty s r.status r.headers r.size r.content_type)
  else if req.method = .get then
    if h.use_async then call_async_get s
    else
      match h.get req.target (get_headers req) with
      | .error m => ⟨[.handler .use_async, .handler (.get req.target)], some m⟩
      | .ok r =>
        outcome.after [.handler .use_async, .handler (.get req.target)]
          (send_body s r.status r.headers r.body r.content_type)
  else if req.method = .post then
    match h.post req.target req.body (get_headers req) with
    | .error m => ⟨[.handler (.post req.target req.body)], some m⟩
    | .ok r =>
      outcome.after [.handler (.post req.target req.body)]
        (send_body s r.status r.headers r.body r.content_type)
  else if req.method = .put then
    match h.put req.target req.body (get_headers req) with
    | .error m => ⟨[.handler (.put req.target req.body)], some m⟩
    | .ok r =>
      outcome.after [.handler (.put req.target req.body)]
        (send_no_content s r.status r.headers)
  else if req.method = .delete_ then
    match h.delete_ req.target req.body (get_headers req) with
    | .error m => ⟨[.handler (.delete_ req.target req.body)], some m⟩
    | .ok r =>
      outcome.after [.handler (.delete_ req.target req.body)]
        (send_body s r.status r.headers r.body r.content_type)
  else
    outcome.after [] ((server_error s "not implemented.").map send_response)

/-- The request method is one of the six the session dispatches. -/
def supported (m : verb) : Prop :=
  m ∈ [verb.options, verb.head, verb.get, verb.post, verb.put, verb.delete_]

instance (m : verb) : Decidable (supported m) := by
  unfold supported; infer_instance

/-- The request target is not empty, starts with `/` and does not contain `..`. -/
def legal_target (t : String) : Prop :=
  t ≠ "" ∧ t.data.head? = some '/' ∧ ¬ ['.', '.'] <:+: t.data

/-- Body of `http_session::on_read`. -/
def on_read (s : http_session) (ec : error_code) : outcome :=
  if ec = .end_of_stream then ⟨do_close, none⟩
  else if ec ≠ .success then ⟨fail ec "read", none⟩
  else handle_request s

/-! ## Observations on a run of `handle_request` -/

/-- The calls of member functions of the handler other than `use_async`, in
the order they were made. -/
def business_calls : List effect → List handler_call
  | [] => []
  | .handler .use_async :: es => business_calls es
  | .handler c :: es => c :: business_calls es
  | _ :: es => business_calls es

/-- The messages given to `async_write`, in the order they were written. -/
def writes : List effect → List response
  | [] => []
  | .async_write msg _ :: es => msg :: writes es
  | _ :: es => writes es

/-- The member function of the handler that serves the method of the request,
with the arguments the request provides: the target, and the body where the
function takes one. -/
def expected_call (s : http_session) : Option handler_call :=
  match s.req_.method with
  | .options => some (.options s.req_.target s.req_.body)
  | .head => some (.head s.req_.target)
  | .get =>
    if s.http_handler_.use_async then some (.async_get s.req_.target)
    else some (.get s.req_.target)
  | .post => some (.post s.req_.target s.req_.body)
  | .put => some (.put s.req_.target s.req_.body)
  | .delete_ => some (.delete_ s.req_.target s.req_.body)
  | _ => none

/-- The case `prepare_payload` refuses: the body is not empty and the status is
a named informational code, 204 or 304. -/
def rejected (status : Int) (body : String) : Prop :=
  0 < body.length
    ∧ (int_to_status (to_status status) / 100 = 1 ∨ int_to_status (to_status status) = 204
        ∨ int_to_status (to_status status) = 304)

instance (status : Int) (body : String) : Decidable (rejected status body) := by
  unfold rejected; infer_instance

/-- The value of the last pair of `hs` whose name equals `name` up to case. -/
def last_named (hs : headers) (name : String) : Option String :=
  (hs.reverse.find? (fun kv => iequals kv.1 name)).map Prod.snd

/-! ## `http_server`: the accept loop -/

/-- The state of `http_server` the accept loop changes: the number of sessions
`http_session::create` has made so far.  A session is named by its rank of
creation. -/
structure http_server where
  sessions : Nat
deriving DecidableEq, Repr

/-- What the server does to the outside: creation of a session, an
`async_accept` into the socket of a session with `http_server::accept` bound to
it, an effect of a member function run on a session, and text written to
`std::cerr`. -/
inductive server_effect where
  | create (session : Nat)
  | async_accept (session : Nat)
  | on_session (session : Nat) (e : effect)
  | cerr (text : String)
deriving DecidableEq, Repr

/-- Body of `http_server::serve`: `http_session::create`, then `async_accept`
on the new session. -/
def serve (srv : http_server) : http_server × List server_effect :=
  (⟨srv.sessions + 1⟩, [.create srv.sessions, .async_accept srv.sessions])

/-- Body of `http_server::accept`, the completion of the `async_accept` on
`session` with the error code `ec`: `session->start()` if there is no error,
then `serve()`. -/
def accept (srv : http_server) (session : Nat) (ec : error_code) :
    http_server × List server_effect :=
  let started := if ec = .success then start.map (.on_session session) else []
  let r := serve srv
  (r.1, started ++ r.2)

/-- The accept loop: `serve()` once, then `accept` at each completion of the
pending `async_accept`, with the error codes of `ecs` in turn.  The result is
the state, the session of the pending `async_accept`, and every effect. -/
def accept_loop (srv : http_server) (ecs : List error_code) :
    http_server × Nat × List server_effect :=
  ecs.foldl
    (fun st ec =>
      let r := accept st.1 st.2.1 ec
      (r.1, st.1.sessions, st.2.2 ++ r.2))
    ((serve srv).1, srv.sessions, (serve srv).2)

/-! ## The three response shapes -/

/-- The response `res` is the body response for the handler output `r`: the
one `send_body` builds from it, a `string_body` response with the status and
the body of `r`. -/
def body_response (s : http_session) (r : body_r) (res : response) : Prop :=
  send_body.res s r.status r.headers r.body r.content_type = .ok res
    ∧ res.kind = .string_body ∧ res.result_ = to_status r.status ∧ res.body = r.body

/-- The response `res` is the header-only response for the handler output `r`:
the one `send_empty` builds from it, an `empty_body` response with the status
of `r`. -/
def header_only_response (s : http_session) (r : head_r) (res : response) : Prop :=
  send_empty.res s r.status r.headers r.size r.content_type = .ok res
    ∧ res.kind = .empty_body ∧ res.result_ = to_status r.status ∧ res.body = ""

/-- The response `res` is the bodiless response for the handler output `r`: the
one `send_no_content` builds from the status and headers of `r`, an
`empty_body` response. -/
def bodiless_response (s : http_session) (r : put_r) (res : response) : Prop :=
  send_no_content.res s r.status r.headers = .ok res
    ∧ res.kind = .empty_body ∧ res.result_ = to_status r.status ∧ res.body = ""

/-- The run of `handle_request` wrote the response `res`, and only it, and no
exception left it. -/
def wrote (s : http_session) (res : response) : Prop :=
  (handle_request s).raised = none ∧ writes (handle_request s).effects = [res]

end httpserver

namespace round_robin

/-! ## Ready counter and FIFO order -/

theorem length_lt_of_distinct (q : List context) (hn : (q.map context.addr).Nodup)
    (hb : ∀ c ∈ q, 0 < c.addr ∧ c.addr < SIZE_MODULUS) : q.length < SIZE_MODULUS := by
  have h1 : (q.map context.addr).toFinset ⊆ Finset.Ico 1 SIZE_MODULUS := by
    intro x hx
    rw [List.mem_toFinset, List.mem_map] at hx
    obtain ⟨c, hc, rfl⟩ := hx
    rw [Finset.mem_Ico]
    exact ⟨(hb c hc).1, (hb c hc).2⟩
  have h2 := Finset.card_le_card h1
  rw [List.toFinset_card_of_nodup hn, Nat.card_Ico, List.length_map] at h2
  have h3 : 0 < SIZE_MODULUS := by decide
  omega

theorem ready_count_le_length (q : List context) : ready_count q ≤ q.length :=
  List.countP_le_length _

theorem wf_init : sched.init.wf :=
  ⟨by simp [sched.init], by simp [sched.init], by simp [sched.init, ready_count]⟩

theorem wf_awakened (s : sched) (ctx : context) (h : s.wf)
    (h0 : 0 < ctx.addr) (h1 : ctx.addr < SIZE_MODULUS) (h2 : ready_is_linked s ctx = false) :
    (awakened s ctx).wf := by
  have hnew : (awakened s ctx).rqueue_ = s.rqueue_ ++ [ctx] := rfl
  have hnodup : ((s.rqueue_ ++ [ctx]).map context.addr).Nodup := by
    rw [List.map_append, List.nodup_append]
    refine ⟨h.nodup, by simp, ?_⟩
    intro a ha hb
    simp only [List.map_cons, List.map_nil, List.mem_singleton] at hb
    rw [List.mem_map] at ha
    obtain ⟨c, hc, hca⟩ := ha
    have : ready_is_linked s ctx = true := by
      unfold ready_is_linked
      rw [List.any_eq_true]
      exact ⟨c, hc, by simp [hca, hb]⟩
    rw [h2] at this
    exact Bool.noConfusion this
  have hbound : ∀ c ∈ s.rqueue_ ++ [ctx], 0 < c.addr ∧ c.addr < SIZE_MODULUS := by
    intro c hc
    rw [List.mem_append, List.mem_singleton] at hc
    rcases hc with hc | rfl
    · exact h.bound c hc
    · exact ⟨h0, h1⟩
  have hlen : (s.rqueue_ ++ [ctx]).length < SIZE_MODULUS :=
    length_lt_of_distinct _ hnodup hbound
  refine ⟨by rw [hnew]; exact hnodup, by rw [hnew]; exact hbound, ?_⟩
  have hle := ready_count_le_length s.rqueue_
  have hc := h.count
  rw [List.length_append, List.length_singleton] at hlen
  unfold ready_count at hc hle ⊢
  unfold awakened
  cases hd : ctx.is_dispatcher
  · simp only [Bool.not_false, if_true, List.countP_append, List.countP_cons, List.countP_nil, hd,
      Nat.zero_add]
    rw [hc]
    exact Nat.mod_eq_of_lt (by omega)
  · simpa [hd] using hc

theorem wf_pick_next (s : sched) (h : s.wf) : (pick_next s).2.wf := by
  obtain ⟨q, n⟩ := s
  cases q with
  | nil => exact h
  | cons c rest =>
    have hn := h.nodup
    have hb := h.bound
    have hc := h.count
    simp only [List.map_cons, List.nodup_cons] at hn
    simp only at hc
    refine ⟨hn.2, fun x hx => hb x (List.mem_cons_of_mem _ hx), ?_⟩
    have hlen : (c :: rest).length < SIZE_MODULUS := length_lt_of_distinct _ h.nodup hb
    have hle := ready_count_le_length rest
    rw [List.length_cons] at hlen
    unfold ready_count at hc hle ⊢
    unfold pick_next
    cases hd : c.is_dispatcher
    · simp only [Bool.not_false, if_true, hd]
      rw [hc, List.countP_cons]
      simp only [hd, Bool.not_false, if_true]
      have : List.countP (fun c => !c.is_dispatcher) rest + 1 + SIZE_MODULUS - 1
          = List.countP (fun c => !c.is_dispatcher) rest + SIZE_MODULUS := by omega
      rw [this, Nat.add_mod_right]
      exact Nat.mod_eq_of_lt (by omega)
    · simpa [hd, List.countP_cons] using hc

theorem wf_run (cs : List call) : ∀ s : sched, s.wf → admissible s cs = true → (run s cs).wf := by
  induction cs with
  | nil => intro s h _; exact h
  | cons c cs ih =>
    intro s h ha
    cases c with
    | awakened ctx =>
      simp only [admissible, Bool.and_eq_true, decide_eq_true_eq, Bool.not_eq_true'] at ha
      obtain ⟨⟨⟨h0, h1⟩, h2⟩, h3⟩ := ha
      exact ih _ (wf_awakened s ctx h h0 h1 h2) h3
    | pick_next =>
      simp only [admissible] at ha
      exact ih _ (wf_pick_next s h) ha

/-- C1 (ReadyCounter invariant).  Starting from the empty scheduler, after every
finite sequence of `awakened` / `pick_next` calls in which `awakened` is only
applied to a non-null context that is not linked in the ready queue, `counter_`
equals the number of non-dispatcher contexts in the ready queue. -/
theorem ready_counter_invariant (cs : List call) (h : admissible sched.init cs = true) :
    (run sched.init cs).counter_ = ready_count (run sched.init cs).rqueue_ :=
  (wf_run cs sched.init wf_init h).count

theorem ready_counter_invariant_witness :
    admissible sched.init
        [.awakened ⟨1, true⟩, .awakened ⟨2, false⟩, .pick_next, .awakened ⟨3, false⟩,
         .pick_next, .pick_next, .pick_next, .awakened ⟨2, false⟩] = true
      ∧ (run sched.init
        [.awakened ⟨1, true⟩, .awakened ⟨2, false⟩, .pick_next, .awakened ⟨3, false⟩,
         .pick_next, .pick_next, .pick_next, .awakened ⟨2, false⟩]).counter_ = 1 
      ∧ (run sched.init
        [.awakened ⟨1, true⟩, .awakened ⟨2, false⟩, .pick_next, .awakened ⟨3, false⟩,
         .pick_next, .pick_next, .pick_next, .awakened ⟨2, false⟩]).counter_
        = ready_count (run sched.init
        [.awakened ⟨1, true⟩, .awakened ⟨2, false⟩, .pick_next, .awakened ⟨3, false⟩,
         .pick_next, .pick_next, .pick_next, .awakened ⟨2, false⟩]).rqueue_ :=
  ⟨by decide, by decide, ready_counter_invariant _ (by decide)⟩

theorem rqueue_awaken_all (ts : List context) :
    ∀ s : sched, (awaken_all s ts).rqueue_ = s.rqueue_ ++ ts := by
  induction ts with
  | nil => intro s; simp [awaken_all]
  | cons t ts ih =>
    intro s
    have h := ih (awakened s t)
    simp only [awaken_all, List.foldl_cons] at h ⊢
    rw [h]
    simp [awakened]

theorem pick_n_drains (q : List context) :
    ∀ n : Nat, ∃ m, pick_n q.length ⟨q, n⟩ = (q.map some, ⟨[], m⟩) := by
  induction q with
  | nil => intro n; exact ⟨n, rfl⟩
  | cons c rest ih =>
    intro n
    obtain ⟨m, hm⟩ := ih (if !c.is_dispatcher then (n + SIZE_MODULUS - 1) % SIZE_MODULUS else n)
    refine ⟨m, ?_⟩
    simp only [List.length_cons, pick_n, pick_next, List.map_cons]
    rw [hm]

/-- C2 (ready-queue FIFO).  When pairwise distinct contexts `T1..Tn` are
awakened in this order on the empty scheduler, the next `n` calls of `pick_next`
return `T1..Tn` in this order, and the call after them returns `nullptr` and
leaves queue and counter as they are. -/
theorem ready_queue_fifo (ts : List context) (hd : (ts.map context.addr).Nodup) :
    (pick_n ts.length (awaken_all sched.init ts)).1 = ts.map some
      ∧ (pick_n ts.length (awaken_all sched.init ts)).2.rqueue_ = []
      ∧ pick_next (pick_n ts.length (awaken_all sched.init ts)).2
          = (none, (pick_n ts.length (awaken_all sched.init ts)).2) := by
  have hq := rqueue_awaken_all ts sched.init
  generalize awaken_all sched.init ts = s at hq ⊢
  obtain ⟨q, n⟩ := s
  simp only [sched.init, List.nil_append] at hq
  subst hq
  obtain ⟨m, hm⟩ := pick_n_drains q n
  rw [hm]
  exact ⟨rfl, rfl, rfl⟩

theorem ready_queue_fifo_witness :
    ([(⟨7, false⟩ : context), ⟨5, false⟩].map context.addr).Nodup
      ∧ (pick_n 2 (awakened (awakened sched.init ⟨7, false⟩) ⟨5, false⟩)).1
          = [some ⟨7, false⟩, some ⟨5, false⟩]
      ∧ pick_next (pick_n 2 (awakened (awakened sched.init ⟨7, false⟩) ⟨5, false⟩)).2
          = (none, sched.init) :=
  ⟨by decide, (ready_queue_fifo [⟨7, false⟩, ⟨5, false⟩] (by decide)).1, by decide⟩

/-! ## Re-arming the wake-up timer -/

/-- C7, on the code.  For every deadline `d` other than `time_point::max`, a
call `suspend_until(d)` on a timer armed for `d` cancels the pending waits
(their handlers are released with `operation_aborted`) and registers a new
wait: the timer state changes, and a second call changes it again. -/
theorem suspend_until_same_deadline_rearms (w : waker) (d : time_point)
    (hd : d ≠ time_point_max) (ha : armed_for w d) :
    (suspend_until w d).suspend_timer_
        = ⟨d, 1, w.suspend_timer_.aborted + w.suspend_timer_.pending⟩
      ∧ (suspend_until w d).suspend_timer_ ≠ w.suspend_timer_
      ∧ (suspend_until (suspend_until w d) d).suspend_timer_
          ≠ (suspend_until w d).suspend_timer_ := by
  have hd' : time_point_max ≠ d := fun h => hd h.symm
  have e : ∀ w : waker, (suspend_until w d).suspend_timer_
      = ⟨d, 1, w.suspend_timer_.aborted + w.suspend_timer_.pending⟩ := by
    intro w
    simp only [suspend_until, if_pos hd', steady_timer.expires_at, steady_timer.async_wait]
  obtain ⟨h1, h2⟩ := ha
  refine ⟨e w, ?_, ?_⟩
  · rw [e w]
    intro h
    have := congrArg steady_timer.aborted h
    simp only at this
    omega
  · rw [e (suspend_until w d), e w]
    intro h
    have := congrArg steady_timer.aborted h
    simp only at this
    omega

theorem suspend_until_same_deadline_rearms_witness :
    ((100 : time_point) ≠ time_point_max ∧ armed_for ⟨⟨100, 1, 0⟩, 0⟩ 100)
      ∧ (suspend_until ⟨⟨100, 1, 0⟩, 0⟩ 100).suspend_timer_ = ⟨100, 1, 0 + 1⟩
      ∧ (suspend_until ⟨⟨100, 1, 0⟩, 0⟩ 100).suspend_timer_ ≠ ⟨100, 1, 0⟩
      ∧ (suspend_until (suspend_until ⟨⟨100, 1, 0⟩, 0⟩ 100) 100).suspend_timer_
          ≠ (suspend_until ⟨⟨100, 1, 0⟩, 0⟩ 100).suspend_timer_ :=
  ⟨⟨by decide, by decide⟩,
   suspend_until_same_deadline_rearms ⟨⟨100, 1, 0⟩, 0⟩ 100 (by decide) (by decide)⟩

end round_robin

namespace httpserver

open http

/-! ## Protocol errors: unsupported method, malformed target -/

theorem find_isSome_iff (pat : List Char) :
    ∀ s : List Char, find s pat ≠ none ↔ pat <:+: s := by
  intro s
  induction s with
  | nil =>
    unfold find
    by_cases hp : pat.isPrefixOf [] = true
    · simp only [hp, if_true]
      rw [List.isPrefixOf_iff_prefix] at hp
      simp only [ne_eq, reduceCtorEq, not_false_eq_true, true_iff]
      exact hp.isInfix
    · simp only [hp, if_false]
      rw [List.isPrefixOf_iff_prefix] at hp
      simp only [ne_eq, not_true_eq_false, false_iff, Bool.false_eq_true, if_false]
      intro h
      exact hp (List.infix_nil.mp h ▸ List.prefix_refl _)
  | cons c t ih =>
    unfold find
    by_cases hp : pat.isPrefixOf (c :: t) = true
    · simp only [hp, if_true]
      rw [List.isPrefixOf_iff_prefix] at hp
      simp only [ne_eq, reduceCtorEq, not_false_eq_true, true_iff]
      exact hp.isInfix
    · simp only [hp, if_false]
      rw [List.isPrefixOf_iff_prefix] at hp
      rw [List.infix_cons_iff]
      constructor
      · intro h
        right
        apply ih.mp
        intro h0
        rw [h0] at h
        exact h rfl
      · intro h
        rcases h with h | h
        · exact absurd h hp
        · have := ih.mpr h
          cases hf : find t pat with
          | none => exact absurd hf this
          | some n => simp

theorem prepare_payload_ok (m : response)
    (h : ¬ (0 < m.payload_size ∧ (m.result / 100 = 1 ∨ m.result = 204 ∨ m.result = 304))) :
    m.prepare_payload = .ok (m.content_length (some m.payload_size)) := by
  unfold response.prepare_payload
  rw [if_neg h]

theorem bad_request_ok (s : http_session) (why : String) :
    ∃ res, bad_request s why = .ok res ∧ res.result_ = 400 ∧ res.body = why := by
  unfold bad_request
  simp only []
  rw [prepare_payload_ok]
  · exact ⟨_, rfl, rfl, rfl⟩
  · have h : ¬ ((400 : Nat) / 100 = 1 ∨ (400 : Nat) = 204 ∨ (400 : Nat) = 304) := by decide
    have h4 : int_to_status 400 = 400 := by decide
    simp only [response.result, response.set_keep_alive, response.set, response.mk_, h4, h,
      and_false, not_false_eq_true]

/-- C3 (unsupported method).  For every request whose method is none of
OPTIONS, HEAD, GET, POST, PUT, DELETE, whatever its target, `handle_request`
writes one response, of status 400, and calls no member function of the
handler; no exception leaves it. -/
theorem unsupported_method_bad_request (s : http_session)
    (hm : s.req_.method ∉ [verb.options, verb.head, verb.get, verb.post, verb.put,
      verb.delete_]) :
    (∃ res, handle_request s = ⟨[.async_write res res.keep_alive], none⟩
        ∧ res.result_ = 400 ∧ res.body = "Unknown HTTP-method")
      ∧ ∀ c, effect.handler c ∉ (handle_request s).effects := by
  simp only [List.mem_cons, List.mem_singleton, List.not_mem_nil, or_false, not_or] at hm
  obtain ⟨h1, h2, h3, h4, h5, h6⟩ := hm
  obtain ⟨res, hres, hst, hb⟩ := bad_request_ok s "Unknown HTTP-method"
  have h : handle_request s = ⟨[.async_write res res.keep_alive], none⟩ := by
    unfold handle_request
    simp only [ne_eq, h1, h2, h3, h4, h5, h6, not_false_eq_true, and_self, if_true, hres]
    rfl
  refine ⟨⟨res, h, hst, hb⟩, ?_⟩
  intro c hc
  rw [h] at hc
  simp at hc

theorem unsupported_method_bad_request_witness :
    verb.trace ∉ [verb.options, verb.head, verb.get, verb.post, verb.put, verb.delete_]
      ∧ (∃ res, handle_request
            ⟨http_handler_mock, ⟨.trace, "/x", 11, ⟨[]⟩, ""⟩, "Boost.Beast"⟩
              = ⟨[.async_write res res.keep_alive], none⟩
          ∧ res.result_ = 400 ∧ res.body = "Unknown HTTP-method")
      ∧ ∀ c, effect.handler c ∉ (handle_request
            ⟨http_handler_mock, ⟨.trace, "/x", 11, ⟨[]⟩, ""⟩, "Boost.Beast"⟩).effects :=
  ⟨by decide,
   unsupported_method_bad_request
     ⟨http_handler_mock, ⟨.trace, "/x", 11, ⟨[]⟩, ""⟩, "Boost.Beast"⟩ (by decide)⟩

/-- C4 (malformed target).  For every request with a supported method whose
target is empty, does not start with `/`, or contains `..`, `handle_request`
writes one response, of status 400, and calls no member function of the
handler; no exception leaves it. -/
theorem illegal_target_bad_request (s : http_session)
    (hm : s.req_.method ∈ [verb.options, verb.head, verb.get, verb.post, verb.put,
      verb.delete_])
    (ht : s.req_.target = "" ∨ s.req_.target.data.head? ≠ some '/'
      ∨ ['.', '.'] <:+: s.req_.target.data) :
    (∃ res, handle_request s = ⟨[.async_write res res.keep_alive], none⟩
        ∧ res.result_ = 400 ∧ res.body = "Illegal request-target")
      ∧ ∀ c, effect.handler c ∉ (handle_request s).effects := by
  have hm1 : ¬ (s.req_.method ≠ .get ∧ s.req_.method ≠ .head ∧ s.req_.method ≠ .post
      ∧ s.req_.method ≠ .put ∧ s.req_.method ≠ .delete_ ∧ s.req_.method ≠ .options) := by
    simp only [List.mem_cons, List.mem_singleton, List.not_mem_nil, or_false] at hm
    rcases hm with h | h | h | h | h | h <;> simp [h]
  have ht1 : empty s.req_.target ∨ s.req_.target.data.head? ≠ some '/'
      ∨ find s.req_.target.data "..".data ≠ none := by
    rcases ht with h | h | h
    · left; rw [h]; rfl
    · right; left; exact h
    · right; right; exact (find_isSome_iff _ _).mpr h
  obtain ⟨res, hres, hst, hb⟩ := bad_request_ok s "Illegal request-target"
  have h : handle_request s = ⟨[.async_write res res.keep_alive], none⟩ := by
    unfold handle_request
    simp only [if_neg hm1, if_pos ht1, hres]
    rfl
  refine ⟨⟨res, h, hst, hb⟩, ?_⟩
  intro c hc
  rw [h] at hc
  simp at hc

theorem illegal_target_bad_request_witness :
    (verb.get ∈ [verb.options, verb.head, verb.get, verb.post, verb.put, verb.delete_]
      ∧ ("/../etc/passwd" = "" ∨ "/../etc/passwd".data.head? ≠ some '/'
          ∨ ['.', '.'] <:+: "/../etc/passwd".data))
      ∧ (∃ res, handle_request
            ⟨http_handler_mock, ⟨.get, "/../etc/passwd", 11, ⟨[]⟩, ""⟩, "Boost.Beast"⟩
              = ⟨[.async_write res res.keep_alive], none⟩
          ∧ res.result_ = 400 ∧ res.body = "Illegal request-target")
      ∧ ∀ c, effect.handler c ∉ (handle_request
            ⟨http_handler_mock, ⟨.get, "/../etc/passwd", 11, ⟨[]⟩, ""⟩, "Boost.Beast"⟩).effects :=
  ⟨⟨by decide, Or.inr (Or.inr ⟨['/'], "/etc/passwd".data, rfl⟩)⟩,
   illegal_target_bad_request
     ⟨http_handler_mock, ⟨.get, "/../etc/passwd", 11, ⟨[]⟩, ""⟩, "Boost.Beast"⟩ (by decide)
     (Or.inr (Or.inr ⟨['/'], "/etc/passwd".data, rfl⟩))⟩

end httpserver

namespace http

/-! ## Header fields: lookup after update -/

theorem iequals_iff (a b : String) : iequals a b = true ↔ lower a = lower b := by
  unfold iequals
  exact beq_iff_eq

theorem iequals_self (a : String) : iequals a a = true := (iequals_iff a a).mpr rfl

theorem iequals_false_of (k n m : String) (hk : iequals k n = true) (hnm : iequals n m = false) :
    iequals k m = false := by
  rw [iequals_iff] at hk
  cases h : iequals k m with
  | false => rfl
  | true =>
    rw [iequals_iff] at h
    have : iequals n m = true := (iequals_iff n m).mpr (hk ▸ h)
    rw [hnm] at this
    exact Bool.noConfusion this

theorem find_append_single (l : List (String × String)) (n v m : String) :
    (basic_fields.mk (l ++ [(n, v)])).find m
      = match (basic_fields.mk l).find m with
        | some x => some x
        | none => if iequals n m then some v else none := by
  unfold basic_fields.find
  simp only [List.find?_append]
  cases h : List.find? (fun kv => iequals kv.1 m) l with
  | some x => simp
  | none =>
    by_cases hn : iequals n m = true
    · simp [List.find?, hn]
    · simp [List.find?, hn]

theorem find_erase_self (f : basic_fields) (n : String) : (f.erase n).find n = none := by
  unfold basic_fields.find basic_fields.erase
  simp only [Option.map_eq_none', List.find?_eq_none, List.mem_filter]
  intro kv hkv
  simpa using hkv.2

theorem find_erase_ne (f : basic_fields) (n m : String) (h : iequals n m = false) :
    (f.erase n).find m = f.find m := by
  obtain ⟨l⟩ := f
  unfold basic_fields.find basic_fields.erase
  simp only
  congr 1
  induction l with
  | nil => rfl
  | cons kv l ih =>
    by_cases hk : iequals kv.1 n = true
    · have hm : iequals kv.1 m = false := iequals_false_of _ _ _ hk h
      simp only [List.filter, hk, Bool.not_true, List.find?, hm]
      exact ih
    · simp only [Bool.not_eq_true] at hk
      simp only [List.filter, hk, Bool.not_false, List.find?]
      cases iequals kv.1 m
      · exact ih
      · rfl

theorem find_set_self (f : basic_fields) (n v : String) :
    (f.set n v).find n = some (trim v) := by
  unfold basic_fields.set
  rw [find_append_single]
  have h := find_erase_self f n
  have h' : (basic_fields.mk (f.erase n).list_) = f.erase n := rfl
  rw [h', h]
  simp [iequals_self]

theorem find_set_ne (f : basic_fields) (n v m : String) (h : iequals n m = false) :
    (f.set n v).find m = f.find m := by
  unfold basic_fields.set
  rw [find_append_single]
  have h' : (basic_fields.mk (f.erase n).list_) = f.erase n := rfl
  rw [h', find_erase_ne f n m h, h]
  cases f.find m <;> simp

theorem find_set_content_length_impl_ne (f : basic_fields) (n : Option Nat) (m : String)
    (h : iequals "Content-Length" m = false) :
    (f.set_content_length_impl n).find m = f.find m := by
  cases n with
  | none => exact find_erase_ne f _ m h
  | some k => exact find_set_ne f _ _ m h

theorem find_clear_chunked_ne (f : basic_fields) (m : String)
    (h : iequals "Transfer-Encoding" m = false) :
    f.clear_chunked.find m = f.find m := by
  unfold basic_fields.clear_chunked
  cases f.find "Transfer-Encoding" with
  | none => rfl
  | some v =>
    simp only
    split
    · exact find_set_ne f _ _ m h
    · exact find_erase_ne f _ m h

theorem find_set_keep_alive_impl_ne (f : basic_fields) (version : Nat) (ka : Bool) (m : String)
    (h : iequals "Connection" m = false) :
    (f.set_keep_alive_impl version ka).find m = f.find m := by
  unfold basic_fields.set_keep_alive_impl
  simp only
  split
  · exact find_erase_ne f _ m h
  · exact find_set_ne f _ _ m h

/-! ## Trimming -/

theorem skip_ows_eq_self (l : List Char) (h : ∀ c, l.head? = some c → is_ows c = false) :
    skip_ows l = l := by
  cases l with
  | nil => rfl
  | cons c t =>
    have hc := h c rfl
    unfold skip_ows
    rw [List.dropWhile_cons_of_neg (by simp [hc])]

theorem trim_eq_self (s : String) (h1 : ∀ c, s.data.head? = some c → is_ows c = false)
    (h2 : ∀ c, s.data.getLast? = some c → is_ows c = false) : trim s = s := by
  obtain ⟨l⟩ := s
  unfold trim
  simp only at h1 h2 ⊢
  rw [skip_ows_eq_self l h1]
  have h3 : skip_ows l.reverse = l.reverse :=
    skip_ows_eq_self _ (by intro c hc; rw [List.head?_reverse] at hc; exact h2 c hc)
  unfold skip_ows at h3
  rw [h3, List.reverse_reverse]

theorem trim_eq_self_of_all (s : String) (h : ∀ c ∈ s.data, is_ows c = false) : trim s = s :=
  trim_eq_self s (fun c hc => h c (List.mem_of_mem_head? hc))
    (fun c hc => h c (List.mem_of_getLast?_eq_some hc))

theorem is_ows_digitChar (k : Nat) (hk : k < 10) : is_ows (Nat.digitChar k) = false := by
  interval_cases k <;> decide

theorem is_ows_toDigitsCore (fuel : Nat) : ∀ (n : Nat) (ds : List Char),
    (∀ c ∈ ds, is_ows c = false) → ∀ c ∈ Nat.toDigitsCore 10 fuel n ds, is_ows c = false := by
  induction fuel with
  | zero => intro n ds h c hc; exact h c hc
  | succ fuel ih =>
    intro n ds h c hc
    have hd : ∀ c ∈ Nat.digitChar (n % 10) :: ds, is_ows c = false := by
      intro x hx
      rcases List.mem_cons.mp hx with rfl | hx
      · exact is_ows_digitChar _ (Nat.mod_lt _ (by decide))
      · exact h x hx
    unfold Nat.toDigitsCore at hc
    simp only at hc
    split at hc
    · exact hd c hc
    · exact ih _ _ hd c hc

theorem trim_repr (n : Nat) : trim (Nat.repr n) = Nat.repr n := by
  apply trim_eq_self_of_all
  intro c hc
  exact is_ows_toDigitsCore _ _ _ (by simp) c hc

end http

namespace httpserver

open http

/-! ## Responses built by `send_empty` and `send_body` -/

theorem set_headers_eq (hs : Option headers) : ∀ res : response,
    set_headers res hs
      = { res with base := (hs.getD []).foldl (fun b kv => b.set kv.1 kv.2) res.base } := by
  cases hs with
  | none => intro res; rfl
  | some l =>
    induction l with
    | nil => intro res; rfl
    | cons kv l ih =>
      intro res
      have h := ih (res.set kv.1 kv.2)
      simp only [set_headers, Option.getD_some, List.foldl_cons] at h ⊢
      rw [h]
      rfl

theorem find_foldl_set_ne (m : String) (l : List (String × String))
    (h : ∀ kv ∈ l, iequals kv.1 m = false) : ∀ b : basic_fields,
    (l.foldl (fun b kv => b.set kv.1 kv.2) b).find m = b.find m := by
  induction l with
  | nil => intro b; rfl
  | cons kv l ih =>
    intro b
    rw [List.foldl_cons, ih (fun x hx => h x (List.mem_cons_of_mem _ hx))]
    exact find_set_ne b _ _ m (h kv (List.mem_cons_self _ _))

theorem find_content_length_prepared (b : basic_fields) (n : Nat) :
    ((b.set_content_length_impl (some n)).clear_chunked).find "Content-Length"
      = some (Nat.repr n) := by
  rw [find_clear_chunked_ne _ _ (by decide)]
  unfold basic_fields.set_content_length_impl
  rw [find_set_self, trim_repr]

/-- The response of `send_empty`: whatever size the handler declares,
`prepare_payload` leaves `Content-Length: 0` in the response. -/
theorem send_empty_content_length (s : http_session) (status : Int) (hs : Option headers)
    (content_size : Nat) (content_type : String) :
    ∃ res, send_empty.res s status hs content_size content_type = .ok res
      ∧ res.result_ = to_status status ∧ res.body = ""
      ∧ res.base.find "Content-Length" = some "0" := by
  unfold send_empty.res
  simp only [set_headers_eq]
  rw [prepare_payload_ok]
  · refine ⟨_, rfl, rfl, rfl, ?_⟩
    exact find_content_length_prepared _ 0
  · intro h
    exact absurd h.1 (by simp [response.payload_size, response.set_keep_alive, response.mk_,
      response.set, response.content_length])

theorem send_body_res_ok (s : http_session) (status : Int) (hs : Option headers)
    (body content_type : String)
    (hst : 0 ≤ status ∧ status < 2 ^ 31)
    (hok : body = "" ∨ (status / 100 ≠ 1 ∧ status ≠ 204 ∧ status ≠ 304)) :
    ∃ res, send_body.res s status hs body content_type = .ok res
      ∧ (res.result_ : Int) = status ∧ res.body = body ∧ res.kind = .string_body
      ∧ res.version = s.req_.version
      ∧ res.base.find "Content-Length" = some (Nat.repr body.length)
      ∧ (∀ m, iequals "Content-Length" m = false → iequals "Transfer-Encoding" m = false →
          iequals "Connection" m = false →
          res.base.find m
            = (((hs.getD []).foldl (fun b kv => b.set kv.1 kv.2)
                ((((basic_fields.mk []).set "Server" s.version_string).set "Content-Type"
                  (if empty content_type then "text/plain" else content_type)
                    ).set_content_length_impl (some body.length)).clear_chunked)).find m) := by
  have hcast : ((to_status status : Nat) : Int) = status := by
    unfold to_status
    rw [Int.toNat_of_nonneg (Int.emod_nonneg _ (by norm_num))]
    exact Int.emod_eq_of_lt hst.1 (by omega)
  unfold send_body.res
  simp only [set_headers_eq]
  rw [prepare_payload_ok]
  · refine ⟨_, rfl, hcast, rfl, rfl, rfl, ?_, ?_⟩
    · exact find_content_length_prepared _ _
    · intro m h1 h2 h3
      simp only [response.content_length, response.set_keep_alive, response.set, response.mk_]
      rw [find_clear_chunked_ne _ _ h2, find_set_content_length_impl_ne _ _ _ h1,
        find_set_keep_alive_impl_ne _ _ _ _ h3]
  · simp only [response.payload_size, response.set_keep_alive, response.mk_, response.set,
      response.content_length, response.result, int_to_status]
    rintro ⟨hlen, hr⟩
    rcases hok with hb | ⟨h1, h2, h3⟩
    · rw [hb] at hlen
      exact absurd hlen (by decide)
    · split at hr
      · generalize to_status status = n at hcast hr
        omega
      · simp at hr

end httpserver

namespace http

/-! ## Token lists -/

theorem is_ows_of_token_char (c : Char) (h : is_token_char c = true) : is_ows c = false := by
  cases ho : is_ows c with
  | false => rfl
  | true =>
    unfold is_ows at ho
    simp only [Bool.or_eq_true, beq_iff_eq] at ho
    rcases ho with rfl | rfl
    · exact absurd h (by decide)
    · exact absurd h (by decide)

theorem go_succ (fuel : Nat) (nc : Bool) (s : List Char) :
    token_list.go (fuel + 1) nc s
      = match skip_ows s with
        | [] => []
        | c :: rest =>
          if is_token_char c then
            if nc then []
            else ⟨c :: rest.takeWhile is_token_char⟩
                   :: token_list.go fuel true (rest.dropWhile is_token_char)
          else if c = ',' then token_list.go fuel false rest
          else [] := rfl

theorem go_valid (fuel : Nat) : ∀ (nc : Bool) (s : List Char),
    ∀ t ∈ token_list.go fuel nc s, valid_token t := by
  induction fuel with
  | zero => intro nc s t ht; simp [token_list.go] at ht
  | succ fuel ih =>
    intro nc s t ht
    rw [go_succ] at ht
    generalize skip_ows s = sk at ht
    cases sk with
    | nil => simp at ht
    | cons c rest =>
      simp only at ht
      by_cases hc : is_token_char c = true
      · simp only [hc, if_true] at ht
        cases nc with
        | true => simp at ht
        | false =>
          simp only [Bool.false_eq_true, if_false, List.mem_cons] at ht
          rcases ht with rfl | ht
          · refine ⟨by simp, ?_⟩
            intro x hx
            simp only [List.mem_cons] at hx
            rcases hx with rfl | hx
            · exact hc
            · exact (List.mem_takeWhile_imp hx)
          · exact ih _ _ t ht
      · simp only [hc, if_false] at ht
        by_cases hcomma : c = ','
        · simp only [hcomma, if_true] at ht
          exact ih _ _ t ht
        · simp [hcomma] at ht

theorem token_list_valid (value : String) : ∀ t ∈ token_list value, valid_token t :=
  go_valid _ _ _

theorem takeWhile_token_append (cs r : List Char) (hcs : ∀ c ∈ cs, is_token_char c = true)
    (hr : ∀ c, r.head? = some c → is_token_char c = false) :
    (cs ++ r).takeWhile is_token_char = cs ∧ (cs ++ r).dropWhile is_token_char = r := by
  induction cs with
  | nil =>
    cases r with
    | nil => exact ⟨rfl, rfl⟩
    | cons c r' =>
      have := hr c rfl
      simp [List.takeWhile, List.dropWhile, this]
  | cons c cs ih =>
    have hc := hcs c (List.mem_cons_self _ _)
    have := ih (fun x hx => hcs x (List.mem_cons_of_mem _ hx))
    simp [List.takeWhile, List.dropWhile, hc, this.1, this.2]

theorem go_token_then (fuel : Nat) (t : String) (r : List Char) (ht : valid_token t)
    (hr : ∀ c, r.head? = some c → is_token_char c = false) :
    token_list.go (fuel + 1) false (t.data ++ r) = t :: token_list.go fuel true r := by
  obtain ⟨l⟩ := t
  obtain ⟨hne, hall⟩ := ht
  cases l with
  | nil => exact absurd rfl hne
  | cons c cs =>
    have hc : is_token_char c = true := hall c (List.mem_cons_self _ _)
    have hcs : ∀ x ∈ cs, is_token_char x = true := fun x hx => hall x (List.mem_cons_of_mem _ hx)
    have hsk : skip_ows (c :: cs ++ r) = c :: (cs ++ r) :=
      skip_ows_eq_self _ (by intro x hx; simp at hx; subst hx; exact is_ows_of_token_char _ hc)
    have htd := takeWhile_token_append cs r hcs hr
    rw [go_succ]
    simp only [hsk, hc, if_true, Bool.false_eq_true, if_false, htd.1, htd.2]

theorem go_comma (fuel : Nat) (nc : Bool) (r : List Char) :
    token_list.go (fuel + 1) nc (',' :: r) = token_list.go fuel false r := by
  rw [go_succ]
  have h1 : skip_ows (',' :: r) = ',' :: r := skip_ows_eq_self _ (by intro c hc; simp at hc; subst hc; decide)
  have h2 : is_token_char ',' = false := by decide
  simp [h1, h2]

theorem go_space (fuel : Nat) (nc : Bool) (r : List Char) :
    token_list.go (fuel + 1) nc (' ' :: r) = token_list.go (fuel + 1) nc r := by
  rw [go_succ, go_succ]
  have h1 : skip_ows (' ' :: r) = skip_ows r := by
    unfold skip_ows
    rw [List.dropWhile_cons_of_pos (by decide)]
  rw [h1]

theorem join_tokens_cons_cons (t t' : String) (ts : List String) :
    join_tokens (t :: t' :: ts) = t ++ ", " ++ join_tokens (t' :: ts) := rfl

theorem go_join (ts : List String) (hts : ∀ t ∈ ts, valid_token t) :
    ∀ fuel, (join_tokens ts).data.length < fuel →
      token_list.go fuel false (join_tokens ts).data = ts := by
  induction ts with
  | nil =>
    intro fuel hf
    cases fuel with
    | zero => rfl
    | succ fuel => rfl
  | cons t ts ih =>
    intro fuel hf
    have ht := hts t (List.mem_cons_self _ _)
    have hts' : ∀ x ∈ ts, valid_token x := fun x hx => hts x (List.mem_cons_of_mem _ hx)
    have hlen : 0 < t.data.length := List.length_pos.mpr ht.1
    cases ts with
    | nil =>
      cases fuel with
      | zero => exact absurd hf (Nat.not_lt_zero _)
      | succ fuel =>
        have := go_token_then fuel t [] ht (by simp)
        simp only [List.append_nil] at this
        simp only [join_tokens]
        rw [this]
        cases fuel with
        | zero => rfl
        | succ fuel => rfl
    | cons t' ts' =>
      rw [join_tokens_cons_cons] at hf ⊢
      simp only [String.data_append, List.length_append, List.append_assoc] at hf ⊢
      simp only [List.length_cons, List.length_nil, List.cons_append, List.nil_append] at hf ⊢
      obtain ⟨f3, rfl⟩ : ∃ f3, fuel = f3 + 1 + 1 + 1 := ⟨fuel - 3, by omega⟩
      rw [go_token_then _ t _ ht (by intro c hc; simp at hc; subst hc; decide), go_comma,
        go_space, ih hts' _ (by omega)]

theorem token_list_join (ts : List String) (hts : ∀ t ∈ ts, valid_token t) :
    token_list (join_tokens ts) = ts :=
  go_join ts hts _ (Nat.lt_succ_self _)

theorem join_tokens_head (ts : List String) (hts : ∀ t ∈ ts, valid_token t) :
    ∀ c, (join_tokens ts).data.head? = some c → is_token_char c = true := by
  intro c hc
  cases ts with
  | nil => simp [join_tokens] at hc
  | cons t ts =>
    have ht := hts t (List.mem_cons_self _ _)
    have hh : (join_tokens (t :: ts)).data.head? = t.data.head? := by
      cases ts with
      | nil => rfl
      | cons t' ts' =>
        rw [join_tokens_cons_cons]
        simp only [String.data_append, List.append_assoc]
        exact List.head?_append_of_ne_nil _ ht.1
    rw [hh] at hc
    exact ht.2 c (List.mem_of_mem_head? hc)

theorem join_tokens_ne_nil (t : String) (ts : List String) (ht : valid_token t) :
    (join_tokens (t :: ts)).data ≠ [] := by
  cases ts with
  | nil => exact ht.1
  | cons t' ts' =>
    rw [join_tokens_cons_cons]
    simp only [String.data_append, List.append_assoc]
    intro h
    exact ht.1 (List.append_eq_nil.mp h).1

theorem join_tokens_last (ts : List String) (hts : ∀ t ∈ ts, valid_token t) :
    ∀ c, (join_tokens ts).data.getLast? = some c → is_token_char c = true := by
  induction ts with
  | nil => intro c hc; simp [join_tokens] at hc
  | cons t ts ih =>
    intro c hc
    have ht := hts t (List.mem_cons_self _ _)
    have hts' : ∀ x ∈ ts, valid_token x := fun x hx => hts x (List.mem_cons_of_mem _ hx)
    cases ts with
    | nil => exact ht.2 c (List.mem_of_getLast?_eq_some hc)
    | cons t' ts' =>
      rw [join_tokens_cons_cons] at hc
      simp only [String.data_append] at hc
      rw [List.getLast?_append_of_ne_nil _
        (join_tokens_ne_nil t' ts' (hts' t' (List.mem_cons_self _ _)))] at hc
      exact ih hts' c hc

theorem trim_join_tokens (ts : List String) (hts : ∀ t ∈ ts, valid_token t) :
    trim (join_tokens ts) = join_tokens ts :=
  trim_eq_self _
    (fun c hc => is_ows_of_token_char c (join_tokens_head ts hts c hc))
    (fun c hc => is_ows_of_token_char c (join_tokens_last ts hts c hc))

theorem empty_join_tokens (ts : List String) (hts : ∀ t ∈ ts, valid_token t) :
    empty (join_tokens ts) = true ↔ ts = [] := by
  cases ts with
  | nil => simp [join_tokens, empty]
  | cons t ts =>
    have := join_tokens_ne_nil t ts (hts t (List.mem_cons_self _ _))
    simp [empty, this]

theorem join_tokens_append_single (t : String) : ∀ ts : List String, ts ≠ [] →
    join_tokens (ts ++ [t]) = join_tokens ts ++ ", " ++ t := by
  intro ts
  induction ts with
  | nil => intro h; exact absurd rfl h
  | cons a ts ih =>
    intro _
    cases ts with
    | nil => rfl
    | cons b ts' =>
      have := ih (by simp)
      simp only [List.cons_append] at this ⊢
      rw [join_tokens_cons_cons, this, join_tokens_cons_cons]
      simp only [String.append_assoc]

theorem exists_join_tokens (ts : List String) (hts : ∀ t ∈ ts, valid_token t) (x : String) :
    token_list.exists_ (join_tokens ts) x = ts.any (fun v => iequals x v) := by
  unfold token_list.exists_
  rw [token_list_join ts hts]

theorem iequals_comm (a b : String) : iequals a b = iequals b a := by
  unfold iequals
  exact Bool.beq_comm

theorem valid_token_of_literal (t : String) (h1 : t.data ≠ [])
    (h2 : t.data.all is_token_char = true) : valid_token t :=
  ⟨h1, fun c hc => List.all_eq_true.mp h2 c hc⟩

/-- After `set_keep_alive_impl`, when the computed `Connection` value is a list
of tokens `ts`: what `find` returns. -/
theorem find_connection_set (f : basic_fields) (ts : List String)
    (hts : ∀ t ∈ ts, valid_token t) :
    (if empty (join_tokens ts) then f.erase "Connection"
      else f.set "Connection" (join_tokens ts)).find "Connection"
      = if ts = [] then none else some (join_tokens ts) := by
  by_cases h : ts = []
  · subst h
    simp only [join_tokens, if_true]
    have : empty "" = true := rfl
    rw [this, if_pos rfl]
    exact find_erase_self f _
  · have he : ¬ (empty (join_tokens ts) = true) := fun he => h ((empty_join_tokens ts hts).mp he)
    rw [if_neg he, if_neg h, find_set_self, trim_join_tokens ts hts]

/-! ## `Connection` after `keep_alive(value)` -/

theorem filter_valid (value : String) (p : String → Bool) :
    ∀ t ∈ (token_list value).filter p, valid_token t :=
  fun t ht => token_list_valid value t (List.mem_filter.mp ht).1

/-- Removing the tokens equal to `a` or to `b` leaves no token equal to `a`. -/
theorem any_filter_removed (value a b x : String) (hx : x = a ∨ x = b) :
    ((token_list value).filter (fun t => !(iequals t a || iequals t b))).any
      (fun v => iequals x v) = false := by
  rw [List.any_eq_false]
  intro t ht
  have h := (List.mem_filter.mp ht).2
  simp only [Bool.not_eq_true', Bool.or_eq_false_iff] at h
  rw [iequals_comm]
  rcases hx with rfl | rfl
  · simp [h.1]
  · simp [h.2]

/-- The branch of `keep_alive_impl` that removes the tokens equal to `r` and
makes sure the token `a` is present. -/
theorem add_token_branch (value a r : String) (ha : valid_token a)
    (har : iequals a r = false) :
    ∃ ts : List String, (∀ t ∈ ts, valid_token t)
      ∧ (if empty (filter_token_list value (fun t => iequals t r)) then a
          else if !token_list.exists_ value a then
            filter_token_list value (fun t => iequals t r) ++ (", " ++ a)
          else filter_token_list value (fun t => iequals t r)) = join_tokens ts
      ∧ ts.any (fun v => iequals a v) = true := by
  have hF := filter_valid value (fun t => !iequals t r)
  unfold filter_token_list
  by_cases hnil : (token_list value).filter (fun t => !iequals t r) = []
  · refine ⟨[a], ?_, ?_, ?_⟩
    · intro t ht
      rw [List.mem_singleton.mp ht]
      exact ha
    · rw [hnil]
      rfl
    · simp [iequals_self]
  · have he : ¬ (empty (join_tokens ((token_list value).filter (fun t => !iequals t r))) = true) :=
      fun he => hnil ((empty_join_tokens _ hF).mp he)
    rw [if_neg he]
    by_cases hex : token_list.exists_ value a = true
    · refine ⟨(token_list value).filter (fun t => !iequals t r), hF, ?_, ?_⟩
      · simp [hex]
      · unfold token_list.exists_ at hex
        rw [List.any_eq_true] at hex ⊢
        obtain ⟨t, ht, hat⟩ := hex
        refine ⟨t, List.mem_filter.mpr ⟨ht, ?_⟩, hat⟩
        have : iequals t r = false := iequals_false_of t a r (by rw [iequals_comm]; exact hat) har
        simp [this]
    · refine ⟨(token_list value).filter (fun t => !iequals t r) ++ [a], ?_, ?_, ?_⟩
      · intro t ht
        rcases List.mem_append.mp ht with h | h
        · exact hF t h
        · rw [List.mem_singleton.mp h]; exact ha
      · simp only [Bool.not_eq_true] at hex
        rw [join_tokens_append_single a _ hnil]
        simp [hex, String.append_assoc]
      · simp [iequals_self]

theorem keep_alive_impl_tokens (value : String) (version : Nat) (ka : Bool) :
    ∃ ts : List String, (∀ t ∈ ts, valid_token t)
      ∧ keep_alive_impl value version ka = join_tokens ts
      ∧ (if version < 11 then ts.any (fun v => iequals "keep-alive" v) = ka
          else ts.any (fun v => iequals "close" v) = !ka) := by
  have hka : valid_token "keep-alive" := valid_token_of_literal _ (by decide) (by decide)
  have hcl : valid_token "close" := valid_token_of_literal _ (by decide) (by decide)
  unfold keep_alive_impl
  by_cases hv : version < 11
  · simp only [hv, if_true]
    cases ka with
    | true =>
      obtain ⟨ts, h1, h2, h3⟩ := add_token_branch value "keep-alive" "close" hka (by decide)
      refine ⟨ts, h1, ?_, h3⟩
      simp only [if_true]
      exact h2
    | false =>
      refine ⟨(token_list value).filter (fun t => !(iequals t "close" || iequals t "keep-alive")),
        filter_valid value _, ?_, ?_⟩
      · simp only [Bool.false_eq_true, if_false]
        rfl
      · exact any_filter_removed value "close" "keep-alive" "keep-alive" (Or.inr rfl)
  · simp only [hv, if_false]
    cases ka with
    | true =>
      refine ⟨(token_list value).filter (fun t => !(iequals t "close" || iequals t "keep-alive")),
        filter_valid value _, ?_, ?_⟩
      · simp only [if_true]
        rfl
      · exact any_filter_removed value "close" "keep-alive" "close" (Or.inl rfl)
    | false =>
      obtain ⟨ts, h1, h2, h3⟩ := add_token_branch value "close" "keep-alive" hcl (by decide)
      refine ⟨ts, h1, ?_, ?_⟩
      · simp only [Bool.false_eq_true, if_false]
        exact h2
      · simpa using h3

/-- The getter `keep_alive()` returns what the setter `keep_alive(value)` was
given, whatever `Connection` field was there before. -/
theorem get_set_keep_alive_impl (f : basic_fields) (version : Nat) (ka : Bool) :
    (f.set_keep_alive_impl version ka).get_keep_alive_impl version = ka := by
  obtain ⟨ts, hts, hj, hany⟩ := keep_alive_impl_tokens (f.at "Connection") version ka
  unfold basic_fields.set_keep_alive_impl basic_fields.get_keep_alive_impl
  simp only [hj]
  rw [find_connection_set f ts hts]
  by_cases hnil : ts = []
  · subst hnil
    simp only [if_true]
    by_cases hv : version < 11
    · simp only [hv, if_true, List.any_nil] at hany
      simp [hv, ← hany]
    · simp only [hv, if_false, List.any_nil] at hany
      have : ka = true := by
        cases ka with
        | true => rfl
        | false => exact absurd hany (by decide)
      simp [hv, this]
  · simp only [if_neg hnil]
    rw [exists_join_tokens ts hts, exists_join_tokens ts hts]
    by_cases hv : version < 11
    · simp only [hv, if_true] at hany ⊢
      exact hany
    · simp only [hv, if_false] at hany ⊢
      rw [hany]
      simp

end http

namespace httpserver

open http

/-! ## Keep-alive decision of the responses -/

theorem keep_alive_congr (f g : basic_fields) (version : Nat)
    (h : f.find "Connection" = g.find "Connection") :
    f.get_keep_alive_impl version = g.get_keep_alive_impl version := by
  unfold basic_fields.get_keep_alive_impl
  rw [h]

theorem keep_alive_prepare_payload (m res : response) (h : m.prepare_payload = .ok res) :
    res.keep_alive = m.keep_alive := by
  unfold response.prepare_payload at h
  split at h
  · exact Except.noConfusion h
  · injection h with h
    subst h
    unfold response.keep_alive response.content_length
    simp only
    apply keep_alive_congr
    rw [find_clear_chunked_ne _ _ (by decide), find_set_content_length_impl_ne _ _ _ (by decide)]

theorem keep_alive_set_keep_alive (m : response) (ka : Bool) :
    (m.set_keep_alive ka).keep_alive = ka :=
  get_set_keep_alive_impl m.base m.version ka

theorem send_body_keep_alive (s : http_session) (status : Int) (hs : Option headers)
    (body content_type : String) (es : List effect)
    (h : send_body s status hs body content_type = .ok es) :
    ∀ msg ka, effect.async_write msg ka ∈ es → ka = s.req_.keep_alive := by
  unfold send_body at h
  cases hr : send_body.res s status hs body content_type with
  | error e => rw [hr] at h; exact Except.noConfusion h
  | ok res =>
    rw [hr] at h
    injection h with h
    subst h
    intro msg ka hmem
    simp only [send_response, List.mem_singleton, effect.async_write.injEq] at hmem
    obtain ⟨rfl, rfl⟩ := hmem
    unfold send_body.res at hr
    rw [keep_alive_prepare_payload _ _ hr]
    exact keep_alive_set_keep_alive _ _

theorem send_empty_keep_alive (s : http_session) (status : Int) (hs : Option headers)
    (content_size : Nat) (content_type : String) (es : List effect)
    (h : send_empty s status hs content_size content_type = .ok es) :
    ∀ msg ka, effect.async_write msg ka ∈ es → ka = s.req_.keep_alive := by
  unfold send_empty at h
  cases hr : send_empty.res s status hs content_size content_type with
  | error e => rw [hr] at h; exact Except.noConfusion h
  | ok res =>
    rw [hr] at h
    injection h with h
    subst h
    intro msg ka hmem
    simp only [send_response, List.mem_singleton, effect.async_write.injEq] at hmem
    obtain ⟨rfl, rfl⟩ := hmem
    unfold send_empty.res at hr
    rw [keep_alive_prepare_payload _ _ hr]
    exact keep_alive_set_keep_alive _ _

theorem send_no_content_keep_alive (s : http_session) (status : Int) (hs : Option headers)
    (es : List effect) (h : send_no_content s status hs = .ok es) :
    ∀ msg ka, effect.async_write msg ka ∈ es → ka = s.req_.keep_alive := by
  unfold send_no_content at h
  cases hr : send_no_content.res s status hs with
  | error e => rw [hr] at h; exact Except.noConfusion h
  | ok res =>
    rw [hr] at h
    injection h with h
    subst h
    intro msg ka hmem
    simp only [send_response, List.mem_singleton, effect.async_write.injEq] at hmem
    obtain ⟨rfl, rfl⟩ := hmem
    unfold send_no_content.res at hr
    rw [keep_alive_prepare_payload _ _ hr]
    exact keep_alive_set_keep_alive _ _

theorem fixed_response_keep_alive (s : http_session) (status : Nat) (body : String)
    (res : response)
    (h : ({ (((response.mk_ .string_body status s.req_.version).set "Server"
              s.version_string).set "Content-Type" "text/plain").set_keep_alive
                s.req_.keep_alive with body := body } : response).prepare_payload = .ok res) :
    res.keep_alive = s.req_.keep_alive := by
  rw [keep_alive_prepare_payload _ _ h]
  exact keep_alive_set_keep_alive _ _

theorem writes_after (K : Bool) (calls : List effect) (r : Except String (List effect))
    (hc : ∀ msg ka, effect.async_write msg ka ∈ calls → ka = K)
    (hr : ∀ es, r = .ok es → ∀ msg ka, effect.async_write msg ka ∈ es → ka = K) :
    ∀ msg ka, effect.async_write msg ka ∈ (outcome.after calls r).effects → ka = K := by
  intro msg ka hmem
  cases r with
  | error e => exact hc msg ka hmem
  | ok es =>
    simp only [outcome.after, List.mem_append] at hmem
    rcases hmem with h | h
    · exact hc msg ka h
    · exact hr es rfl msg ka h

theorem writes_run_callbacks (s : http_session) (rs : List get_r) : ∀ calls : List effect,
    (∀ msg ka, effect.async_write msg ka ∈ calls → ka = s.req_.keep_alive) →
    ∀ msg ka, effect.async_write msg ka ∈ (run_callbacks s calls rs).effects →
      ka = s.req_.keep_alive := by
  induction rs with
  | nil => intro calls hc; exact hc
  | cons r rs ih =>
    intro calls hc
    unfold run_callbacks
    cases hsb : send_body s r.status r.headers r.body r.content_type with
    | error e => exact hc
    | ok es =>
      simp only
      apply ih
      intro msg ka hmem
      rcases List.mem_append.mp hmem with h | h
      · exact hc msg ka h
      · exact send_body_keep_alive s _ _ _ _ es hsb msg ka h

theorem writes_fixed (s : http_session) (r : Except String response)
    (h : ∀ res, r = .ok res → res.keep_alive = s.req_.keep_alive) :
    ∀ es, r.map send_response = .ok es →
      ∀ msg ka, effect.async_write msg ka ∈ es → ka = s.req_.keep_alive := by
  intro es hes msg ka hmem
  cases r with
  | error e => exact Except.noConfusion hes
  | ok res =>
    simp only [Except.map] at hes
    injection hes with hes
    subst hes
    simp only [send_response, List.mem_singleton, effect.async_write.injEq] at hmem
    obtain ⟨rfl, rfl⟩ := hmem
    exact h _ rfl

/-- Every write `handle_request` starts is bound to the keep-alive decision of
the request. -/
theorem handle_request_keep_alive (s : http_session) :
    ∀ msg ka, effect.async_write msg ka ∈ (handle_request s).effects →
      ka = s.req_.keep_alive := by
  have hnil : ∀ msg ka, effect.async_write msg ka ∈ ([] : List effect) →
      ka = s.req_.keep_alive := by intro _ _ h; simp at h
  have h1 : ∀ c, ∀ msg ka, effect.async_write msg ka ∈ [effect.handler c] →
      ka = s.req_.keep_alive := by intro _ _ _ h; simp at h
  have h2 : ∀ c d, ∀ msg ka, effect.async_write msg ka ∈ [effect.handler c, effect.handler d] →
      ka = s.req_.keep_alive := by intro _ _ _ _ h; simp at h
  have hbad : ∀ why, ∀ es, (bad_request s why).map send_response = .ok es →
      ∀ msg ka, effect.async_write msg ka ∈ es → ka = s.req_.keep_alive :=
    fun why => writes_fixed s _ (fun res hres => fixed_response_keep_alive s 400 why res hres)
  have herr : ∀ what, ∀ es, (server_error s what).map send_response = .ok es →
      ∀ msg ka, effect.async_write msg ka ∈ es → ka = s.req_.keep_alive :=
    fun what => writes_fixed s _ (fun res hres => fixed_response_keep_alive s 500 _ res hres)
  unfold handle_request
  simp only
  split
  · exact writes_after _ _ _ hnil (hbad _)
  split
  · exact writes_after _ _ _ hnil (hbad _)
  split
  · split
    · exact h1 _
    · exact writes_after _ _ _ (h1 _) (fun es hes => send_body_keep_alive s _ _ _ _ es hes)
  split
  · split
    · exact h1 _
    · exact writes_after _ _ _ (h1 _) (fun es hes => send_empty_keep_alive s _ _ _ _ es hes)
  split
  · split
    · exact writes_run_callbacks s _ _ (h2 _ _)
    · split
      · exact h2 _ _
      · exact writes_after _ _ _ (h2 _ _) (fun es hes => send_body_keep_alive s _ _ _ _ es hes)
  split
  · split
    · exact h1 _
    · exact writes_after _ _ _ (h1 _) (fun es hes => send_body_keep_alive s _ _ _ _ es hes)
  split
  · split
    · exact h1 _
    · exact writes_after _ _ _ (h1 _) (fun es hes => send_no_content_keep_alive s _ _ es hes)
  split
  · split
    · exact h1 _
    · exact writes_after _ _ _ (h1 _) (fun es hes => send_body_keep_alive s _ _ _ _ es hes)
  · exact writes_after _ _ _ hnil (herr _)

/-! ## Exceptions of the handler -/

theorem dispatch_reached (s : http_session) (hm : supported s.req_.method)
    (ht : legal_target s.req_.target) :
    ¬ (s.req_.method ≠ .get ∧ s.req_.method ≠ .head ∧ s.req_.method ≠ .post
        ∧ s.req_.method ≠ .put ∧ s.req_.method ≠ .delete_ ∧ s.req_.method ≠ .options)
      ∧ ¬ (empty s.req_.target ∨ s.req_.target.data.head? ≠ some '/'
        ∨ find s.req_.target.data "..".data ≠ none) := by
  constructor
  · unfold supported at hm
    simp only [List.mem_cons, List.mem_singleton, List.not_mem_nil, or_false] at hm
    rcases hm with h | h | h | h | h | h <;> simp [h]
  · obtain ⟨h1, h2, h3⟩ := ht
    rintro (h | h | h)
    · apply h1
      unfold empty at h
      have : s.req_.target.data = [] := List.isEmpty_iff.mp h
      exact String.ext this
    · exact h h2
    · exact h3 ((find_isSome_iff _ _).mp h)

/-- C5, at `HEAD /x` with the handler answering `(200, {}, 42,
"application/json")`: the response `send_empty` writes has status 200 and no
body, and its `Content-Length` is `0`, not the declared `42`, because
`prepare_payload` sets it from the size of the empty body. -/
theorem head_content_length_overwritten :
    handle_request
        ⟨{ http_handler_mock with
            head := fun _ _ => .ok ⟨200, some [], 42, "application/json"⟩ },
          ⟨.head, "/x", 11, ⟨[]⟩, ""⟩, "Boost.Beast/347"⟩
      = ⟨[.handler (.head "/x"),
          .async_write
            ⟨.empty_body, 200, 11,
              ⟨[("Server", "Boost.Beast/347"), ("Content-Type", "application/json"),
                ("Content-Length", "0")]⟩, ""⟩ true], none⟩ := by
  decide

/-- C6 fails as stated.  At the handler output `(204, {}, "x", "text/plain")`
no response is built: `prepare_payload` raises `std::invalid_argument`, and the
exception leaves `handle_request` with nothing written.  At `(-1, {}, "",
"text/plain")` the status stored is 4294967295, and at `(200, {}, "",
" text/plain")` the `Content-Type` written is `text/plain`, without the blank. -/
theorem send_body_raises_on_no_content_with_body :
    send_body.res ⟨http_handler_mock, ⟨.get, "/missing", 11, ⟨[]⟩, ""⟩, "Boost.Beast/347"⟩
        204 (some []) "x" "text/plain" = .error "invalid response body"
      ∧ handle_request
          ⟨{ http_handler_mock with
              use_async := false
              get := fun _ _ => .ok ⟨204, some [], "x", "text/plain"⟩ },
            ⟨.get, "/missing", 11, ⟨[]⟩, ""⟩, "Boost.Beast/347"⟩
        = ⟨[.handler .use_async, .handler (.get "/missing")],
            some "invalid response body"⟩
      ∧ (send_body.res
            ⟨http_handler_mock, ⟨.get, "/missing", 11, ⟨[]⟩, ""⟩, "Boost.Beast/347"⟩
            (-1) (some []) "" "text/plain").toOption.map response.result_
          = some 4294967295
      ∧ (send_body.res
            ⟨http_handler_mock, ⟨.get, "/missing", 11, ⟨[]⟩, ""⟩, "Boost.Beast/347"⟩
            200 (some []) "" " text/plain").toOption.map
              (fun res => res.base.find "Content-Type")
          = some (some "text/plain") :=
  ⟨rfl, by decide, by decide, by decide⟩

/-- C6, amended.  For every request and every handler output `(status, headers,
body, content_type)` where `status` is a non-negative `int`, the body is empty
or the status is none of 1xx, 204, 304, `content_type` is not empty and has no
blank at either end, and no header is named `Content-Type` or `Content-Length`:
`send_body` builds a response whose status is `status`, whose `Content-Length`
is the length of `body`, whose `Content-Type` is `content_type` and whose body
is `body`. -/
theorem send_body_response (s : http_session) (status : Int) (hs : Option headers)
    (body content_type : String)
    (hst : 0 ≤ status ∧ status < 2 ^ 31)
    (hok : body = "" ∨ (status / 100 ≠ 1 ∧ status ≠ 204 ∧ status ≠ 304))
    (hct : content_type ≠ "" ∧ trim content_type = content_type)
    (hhs : ∀ kv ∈ hs.getD [],
      iequals kv.1 "Content-Type" = false ∧ iequals kv.1 "Content-Length" = false) :
    ∃ res, send_body.res s status hs body content_type = .ok res
      ∧ (res.result_ : Int) = status
      ∧ res.base.find "Content-Length" = some (Nat.repr body.length)
      ∧ res.base.find "Content-Type" = some content_type
      ∧ res.body = body := by
  obtain ⟨res, h1, h2, h3, _, _, h6, h7⟩ := send_body_res_ok s status hs body content_type hst hok
  refine ⟨res, h1, h2, h6, ?_, h3⟩
  rw [h7 "Content-Type" (by decide) (by decide) (by decide),
    find_foldl_set_ne _ _ (fun kv hkv => (hhs kv hkv).1),
    find_clear_chunked_ne _ _ (by decide), find_set_content_length_impl_ne _ _ _ (by decide),
    find_set_self]
  have he : empty content_type = false := by
    cases h : empty content_type with
    | false => rfl
    | true =>
      unfold empty at h
      exact absurd (String.ext (List.isEmpty_iff.mp h)) hct.1
  rw [he]
  simp only [Bool.false_eq_true, if_false]
  rw [hct.2]

theorem send_body_response_witness :
    ((0 : Int) ≤ 404 ∧ (404 : Int) < 2 ^ 31)
      ∧ ("" = "" ∨ ((404 : Int) / 100 ≠ 1 ∧ (404 : Int) ≠ 204 ∧ (404 : Int) ≠ 304))
      ∧ ("text/plain" ≠ "" ∧ trim "text/plain" = "text/plain")
      ∧ (∀ kv ∈ (some ([] : headers)).getD [],
          iequals kv.1 "Content-Type" = false ∧ iequals kv.1 "Content-Length" = false)
      ∧ ∃ res, send_body.res
            ⟨http_handler_mock, ⟨.get, "/missing", 11, ⟨[]⟩, ""⟩, "Boost.Beast/347"⟩
            404 (some []) "" "text/plain" = .ok res
          ∧ (res.result_ : Int) = 404
          ∧ res.base.find "Content-Length" = some (Nat.repr "".length)
          ∧ res.base.find "Content-Type" = some "text/plain"
          ∧ res.body = "" :=
  ⟨by decide, by decide, by decide, by decide,
   send_body_response
     ⟨http_handler_mock, ⟨.get, "/missing", 11, ⟨[]⟩, ""⟩, "Boost.Beast/347"⟩
     404 (some []) "" "text/plain" (by decide) (by decide) (by decide) (by decide)⟩

/-! ## Exceptions, write completion, connection close -/

/-- C9, at `on_write(keep_alive = true, ec = success)`: the function does
nothing; it starts no read and sets no deadline, whereas `start` sets the 30 s
deadline and starts a read.  The send side is not shut down. -/
theorem on_write_keep_alive_starts_no_read :
    on_write true .success = []
      ∧ start = [.expires_after 30, .async_read]
      ∧ effect.async_read ∉ on_write true .success
      ∧ effect.shutdown_send ∉ on_write true .success := by
  decide

/-- C10 fails for a handler header `Connection: close` on a keep-alive request:
`keep_alive(req_.keep_alive())` runs after the handler headers are set and
removes the `close` token, so the write is bound to `keep_alive = true` and
`on_write` does not close. -/
theorem handler_connection_close_ignored :
    handle_request
        ⟨{ http_handler_mock with
            use_async := false
            get := fun _ _ => .ok ⟨200, some [("Connection", "close")], "x", "text/plain"⟩ },
          ⟨.get, "/", 11, ⟨[]⟩, ""⟩, "Boost.Beast/347"⟩
      = ⟨[.handler .use_async, .handler (.get "/"),
          .async_write
            ⟨.string_body, 200, 11,
              ⟨[("Server", "Boost.Beast/347"), ("Content-Type", "text/plain"),
                ("Content-Length", "1")]⟩, "x"⟩ true], none⟩
      ∧ on_write true .success = [] := by
  decide

/-- C10, amended.  When the request does not ask to keep the connection alive
(`req_.keep_alive()` is false), every write `handle_request` starts is bound
to `keep_alive = false`, whatever headers the handler returned, and
`on_write` after a successful write performs `do_close`, the shutdown of the
send side. -/
theorem close_when_request_closes (s : http_session) (hreq : s.req_.keep_alive = false) :
    ∀ msg ka, effect.async_write msg ka ∈ (handle_request s).effects →
      ka = false ∧ on_write ka .success = [.shutdown_send] := by
  intro msg ka hmem
  have h := handle_request_keep_alive s msg ka hmem
  rw [hreq] at h
  subst h
  exact ⟨rfl, rfl⟩

theorem close_when_request_closes_witness :
    (request.mk .get "/" 11 ⟨[("Connection", "close")]⟩ "").keep_alive = false
      ∧ (handle_request
          ⟨{ http_handler_mock with
              use_async := false
              get := fun _ _ =>
                .ok ⟨200, some [("Connection", "keep-alive")], "x", "text/plain"⟩ },
            ⟨.get, "/", 11, ⟨[("Connection", "close")]⟩, ""⟩, "Boost.Beast/347"⟩).effects
        = [.handler .use_async, .handler (.get "/"),
            .async_write
              ⟨.string_body, 200, 11,
                ⟨[("Server", "Boost.Beast/347"), ("Content-Type", "text/plain"),
                  ("Connection", "close"), ("Content-Length", "1")]⟩, "x"⟩ false]
      ∧ ∀ msg ka, effect.async_write msg ka ∈ (handle_request
          ⟨{ http_handler_mock with
              use_async := false
              get := fun _ _ =>
                .ok ⟨200, some [("Connection", "keep-alive")], "x", "text/plain"⟩ },
            ⟨.get, "/", 11, ⟨[("Connection", "close")]⟩, ""⟩, "Boost.Beast/347"⟩).effects →
        ka = false ∧ on_write ka .success = [.shutdown_send] :=
  ⟨by decide, by decide,
   close_when_request_closes
     ⟨{ http_handler_mock with
          use_async := false
          get := fun _ _ =>
            .ok ⟨200, some [("Connection", "keep-alive")], "x", "text/plain"⟩ },
        ⟨.get, "/", 11, ⟨[("Connection", "close")]⟩, ""⟩, "Boost.Beast/347"⟩ (by decide)⟩

end httpserver

namespace round_robin

/-! ## `notify` -/

/-- C13 (`notify`).  For every timer state, armed or not, and whatever its
expiry time, after `notify()` at clock reading `now` the expiry time of the
timer is `now`, no wait is left pending, and the handler of every wait that was
pending (and of the wait `notify` registers) has been released; a later
`suspend_until(d)` with a deadline `d` other than `time_point::max` arms the
timer for `d` with one pending wait, also when `d` is the deadline the timer
was armed for before `notify`. -/
theorem notify_fires_now (w : waker) (now d : time_point) (hd : d ≠ time_point_max) :
    (notify w now).suspend_timer_.expiry = now
      ∧ (notify w now).suspend_timer_.pending = 0
      ∧ (notify w now).suspend_timer_.aborted
          = w.suspend_timer_.aborted + (w.suspend_timer_.pending + 1)
      ∧ armed_for (suspend_until (notify w now) d) d
      ∧ (suspend_until (notify w now) d).suspend_timer_
          = ⟨d, 1, w.suspend_timer_.aborted + (w.suspend_timer_.pending + 1)⟩ := by
  have hd' : time_point_max ≠ d := fun h => hd h.symm
  have e : (suspend_until (notify w now) d).suspend_timer_
      = ⟨d, 1, w.suspend_timer_.aborted + (w.suspend_timer_.pending + 1)⟩ := by
    simp only [suspend_until, if_pos hd', notify, steady_timer.expires_at,
      steady_timer.async_wait, Nat.add_zero, Nat.zero_add]
  refine ⟨rfl, rfl, rfl, ?_, e⟩
  unfold armed_for
  rw [e]
  exact ⟨rfl, Nat.one_pos⟩

theorem notify_fires_now_witness :
    (1000000 : time_point) ≠ time_point_max
      ∧ armed_for ⟨⟨1000000, 1, 0⟩, 1⟩ 1000000
      ∧ (notify ⟨⟨1000000, 1, 0⟩, 1⟩ 5).suspend_timer_.expiry = 5
      ∧ (notify ⟨⟨1000000, 1, 0⟩, 1⟩ 5).suspend_timer_.pending = 0
      ∧ (notify ⟨⟨1000000, 1, 0⟩, 1⟩ 5).suspend_timer_.aborted = 0 + (1 + 1)
      ∧ armed_for (suspend_until (notify ⟨⟨1000000, 1, 0⟩, 1⟩ 5) 1000000) 1000000
      ∧ (suspend_until (notify ⟨⟨1000000, 1, 0⟩, 1⟩ 5) 1000000).suspend_timer_
          = ⟨1000000, 1, 0 + (1 + 1)⟩ :=
  ⟨by decide, by decide, notify_fires_now ⟨⟨1000000, 1, 0⟩, 1⟩ 5 1000000 (by decide)⟩

end round_robin

namespace httpserver

open http

/-! ## The accept loop -/

theorem accept_effects (srv : http_server) (session : Nat) (ec : error_code) :
    accept srv session ec
      = (⟨srv.sessions + 1⟩,
          (if ec = .success then
              [server_effect.on_session session (.expires_after 30),
               server_effect.on_session session .async_read]
            else [])
            ++ [.create srv.sessions, .async_accept srv.sessions]) := by
  unfold accept serve start
  by_cases h : ec = .success <;> simp [h]

/-- After `serve()` and any number of accept completions, with or without
errors: one `async_accept` is pending, on the session created last, which has
not been started, and nothing has been written to `std::cerr`. -/
theorem accept_loop_pending (ecs : List error_code) (srv : http_server) :
    (accept_loop srv ecs).2.1 + 1 = (accept_loop srv ecs).1.sessions
      ∧ (accept_loop srv ecs).2.2.getLast? = some (.async_accept (accept_loop srv ecs).2.1)
      ∧ (∀ n e, server_effect.on_session n e ∈ (accept_loop srv ecs).2.2 →
          n < (accept_loop srv ecs).2.1)
      ∧ ∀ text, server_effect.cerr text ∉ (accept_loop srv ecs).2.2 := by
  unfold accept_loop
  induction ecs using List.reverseRecOn with
  | nil =>
    simp [serve]
  | append_singleton ecs ec ih =>
    rw [List.foldl_append]
    simp only [List.foldl_cons, List.foldl_nil]
    generalize List.foldl _ _ ecs = st at ih ⊢
    obtain ⟨s1, p, es⟩ := st
    obtain ⟨h1, h2, h3, h4⟩ := ih
    simp only at h1 h2 h3 h4
    simp only [accept_effects]
    refine ⟨trivial, ?_, ?_, ?_⟩
    · simp
    · intro n e hmem
      simp only [List.mem_append, List.mem_cons, List.mem_singleton, reduceCtorEq,
        or_false, List.not_mem_nil] at hmem
      rcases hmem with hmem | hmem
      · have := h3 n e hmem
        omega
      · by_cases hec : ec = .success
        · simp only [hec, if_true, List.mem_cons, server_effect.on_session.injEq,
            List.mem_singleton, List.not_mem_nil, or_false] at hmem
          rcases hmem with ⟨rfl, _⟩ | ⟨rfl, _⟩ <;> omega
        · simp [hec] at hmem
    · intro text hmem
      simp only [List.mem_append, List.mem_cons, List.mem_singleton, reduceCtorEq,
        or_false, List.not_mem_nil] at hmem
      rcases hmem with hmem | hmem
      · exact h4 text hmem
      · by_cases hec : ec = .success <;> simp [hec] at hmem

/-- C12 fails on its last part: at the completion of the accept on session 0
with the error `Too many open files`, `accept` creates session 1 and accepts
into it, and writes nothing to `std::cerr`. -/
theorem accept_error_not_logged :
    accept ⟨1⟩ 0 (.other "Too many open files")
        = (⟨2⟩, [.create 1, .async_accept 1])
      ∧ ∀ text, server_effect.cerr text
          ∉ (accept ⟨1⟩ 0 (.other "Too many open files")).2 := by
  refine ⟨by decide, ?_⟩
  intro text h
  simp [accept_effects] at h

/-- C12, amended.  At every accept completion, with or without an error,
`accept` calls `serve` again: a session that did not exist before is created
and an `async_accept` into it is started, so that after any number of
completions an accept is pending; the accepted session is started if and only
if the accept reported no error; and nothing is written to `std::cerr`, an
accept error is dropped without a trace. -/
theorem accept_reposts (srv : http_server) (session : Nat) (ec : error_code)
    (hs : session < srv.sessions) :
    ((accept srv session ec).2.getLast? = some (.async_accept srv.sessions)
        ∧ server_effect.create srv.sessions ∈ (accept srv session ec).2
        ∧ srv.sessions ≠ session)
      ∧ (∀ ecs, (accept_loop srv ecs).2.2.getLast?
          = some (.async_accept (accept_loop srv ecs).2.1))
      ∧ ((∀ e, e ∈ start → server_effect.on_session session e ∈ (accept srv session ec).2)
          ↔ ec = .success)
      ∧ (ec ≠ .success → ∀ n e, server_effect.on_session n e ∉ (accept srv session ec).2)
      ∧ ∀ text, server_effect.cerr text ∉ (accept srv session ec).2 := by
  rw [accept_effects]
  refine ⟨⟨by simp, by simp, by omega⟩, fun ecs => (accept_loop_pending ecs srv).2.1, ?_, ?_, ?_⟩
  · by_cases hec : ec = .success
    · simp [hec, start]
    · simp only [hec, if_false, List.nil_append, iff_false]
      intro h
      have := h .async_read (by simp [start])
      simp at this
  · intro hec n e h
    simp [hec] at h
  · intro text h
    by_cases hec : ec = .success <;> simp [hec] at h

theorem accept_reposts_witness :
    (0 < (http_server.mk 1).sessions)
      ∧ ((accept ⟨1⟩ 0 .connection_reset).2.getLast? = some (.async_accept 1)
          ∧ server_effect.create 1 ∈ (accept ⟨1⟩ 0 .connection_reset).2
          ∧ 1 ≠ 0)
      ∧ (∀ ecs, (accept_loop ⟨1⟩ ecs).2.2.getLast?
          = some (.async_accept (accept_loop ⟨1⟩ ecs).2.1))
      ∧ ((∀ e, e ∈ start →
            server_effect.on_session 0 e ∈ (accept ⟨1⟩ 0 .connection_reset).2)
          ↔ error_code.connection_reset = .success)
      ∧ (error_code.connection_reset ≠ .success →
          ∀ n e, server_effect.on_session n e ∉ (accept ⟨1⟩ 0 .connection_reset).2)
      ∧ ∀ text, server_effect.cerr text ∉ (accept ⟨1⟩ 0 .connection_reset).2 :=
  ⟨by decide, accept_reposts ⟨1⟩ 0 .connection_reset (by decide)⟩

end httpserver

namespace http

/-! ## Header precedence -/

theorem find_set_of_iequals (f : basic_fields) (n v m : String) (h : iequals n m = true) :
    (f.set n v).find m = some (trim v) := by
  have hl : lower n = lower m := (iequals_iff n m).mp h
  have he : (f.erase n).find m = none := by
    unfold basic_fields.find basic_fields.erase
    simp only [Option.map_eq_none', List.find?_eq_none, List.mem_filter]
    intro kv hkv
    have h2 := hkv.2
    simp only [Bool.not_eq_true', iequals, beq_eq_false_iff_ne, ne_eq] at h2 ⊢
    simp only [beq_iff_eq]
    rw [← hl]
    exact h2
  unfold basic_fields.set
  rw [find_append_single]
  have h' : (basic_fields.mk (f.erase n).list_) = f.erase n := rfl
  rw [h', he]
  simp [h]

theorem find_set (f : basic_fields) (n v m : String) :
    (f.set n v).find m = if iequals n m then some (trim v) else f.find m := by
  by_cases h : iequals n m = true
  · rw [if_pos h]
    exact find_set_of_iequals f n v m h
  · rw [if_neg h]
    exact find_set_ne f n v m (by simpa using h)

end http

namespace httpserver

open http

theorem last_named_cons (kv : String × String) (l : headers) (m : String) :
    last_named (kv :: l) m
      = match last_named l m with
        | some v => some v
        | none => if iequals kv.1 m then some kv.2 else none := by
  unfold last_named
  rw [List.reverse_cons, List.find?_append]
  cases h : List.find? (fun kv => iequals kv.1 m) l.reverse with
  | some x => simp
  | none =>
    by_cases hk : iequals kv.1 m = true
    · simp [List.find?, hk]
    · simp [List.find?, hk]

/-- After the loop over the handler headers, a name is bound to the value of
the last handler header of that name, trimmed, or else to what it was bound to
before the loop. -/
theorem find_foldl_set (m : String) (l : headers) : ∀ b : basic_fields,
    (l.foldl (fun b kv => b.set kv.1 kv.2) b).find m
      = match last_named l m with
        | some v => some (trim v)
        | none => b.find m := by
  induction l with
  | nil => intro b; rfl
  | cons kv l ih =>
    intro b
    rw [List.foldl_cons, ih, last_named_cons, find_set]
    cases last_named l m with
    | some v => rfl
    | none =>
      by_cases hk : iequals kv.1 m = true
      · simp [hk]
      · simp [hk]

/-- The response of `send_body` when `prepare_payload` accepts the body. -/
theorem send_body_res_built (s : http_session) (status : Int) (hs : Option headers)
    (body content_type : String) (hrej : ¬ rejected status body) :
    ∃ res, send_body.res s status hs body content_type = .ok res
      ∧ res.result_ = to_status status ∧ res.body = body ∧ res.kind = .string_body
      ∧ res.version = s.req_.version
      ∧ res.keep_alive = s.req_.keep_alive
      ∧ res.base.find "Content-Length" = some (Nat.repr body.length)
      ∧ (∀ m, iequals "Content-Length" m = false → iequals "Transfer-Encoding" m = false →
          iequals "Connection" m = false →
          res.base.find m
            = (((hs.getD []).foldl (fun b kv => b.set kv.1 kv.2)
                ((((basic_fields.mk []).set "Server" s.version_string).set "Content-Type"
                  (if empty content_type then "text/plain" else content_type)
                    ).set_content_length_impl (some body.length)).clear_chunked)).find m) := by
  have hp : ∀ m : response, m.kind = .string_body → m.body = body →
      m.result_ = to_status status →
      m.prepare_payload = .ok (m.content_length (some m.payload_size)) := by
    intro m hk hb hr
    apply prepare_payload_ok
    simp only [response.payload_size, hk, hb, response.result, hr]
    exact hrej
  have hres : ∃ res, send_body.res s status hs body content_type = .ok res :=
    ⟨_, by unfold send_body.res; simp only [set_headers_eq]; exact hp _ rfl rfl rfl⟩
  obtain ⟨res, hres⟩ := hres
  have hka : res.keep_alive = s.req_.keep_alive := by
    have := send_body_keep_alive s status hs body content_type (send_response res)
      (by unfold send_body; rw [hres]; rfl) res res.keep_alive (by simp [send_response])
    exact this
  refine ⟨res, hres, ?_⟩
  unfold send_body.res at hres
  simp only [set_headers_eq] at hres
  rw [hp _ rfl rfl rfl] at hres
  injection hres with hres
  subst hres
  refine ⟨rfl, rfl, rfl, rfl, hka, find_content_length_prepared _ _, ?_⟩
  intro m h1 h2 h3
  simp only [response.content_length, response.set_keep_alive, response.set, response.mk_]
  rw [find_clear_chunked_ne _ _ h2, find_set_content_length_impl_ne _ _ _ h1,
    find_set_keep_alive_impl_ne _ _ _ _ h3]

/-- C14 fails as stated.  At the handler output `(304, {Content-Length: 5,
Connection: close}, "hello", "")` there is no final response, hence no final
`Content-Length` and no keep-alive decision: `prepare_payload` raises
`std::invalid_argument`. -/
theorem send_body_no_final_response :
    send_body.res ⟨http_handler_mock, ⟨.get, "/", 11, ⟨[]⟩, ""⟩, "Boost.Beast/347"⟩
        304 (some [("Content-Length", "5"), ("Connection", "close")]) "hello" ""
      = .error "invalid response body"
      ∧ send_body ⟨http_handler_mock, ⟨.get, "/", 11, ⟨[]⟩, ""⟩, "Boost.Beast/347"⟩
          304 (some [("Content-Length", "5"), ("Connection", "close")]) "hello" ""
        = .error "invalid response body" :=
  ⟨rfl, rfl⟩

/-- C14, amended.  For every handler output passed to `send_body` whose body
`prepare_payload` accepts (every output but a non-empty body with a named 1xx
status, 204 or 304), a response is built in which `Server` and `Content-Type`
hold the value of the last handler header of that name, trimmed, when there is
one, and otherwise the default of the session (`BOOST_BEAST_VERSION_STRING`;
`content_type`, or `text/plain` when `content_type` is empty); `Content-Length`
is the length of the body and the keep-alive decision is that of the request,
whatever the handler headers hold. -/
theorem send_body_header_precedence (s : http_session) (status : Int) (hs : Option headers)
    (body content_type : String) (hrej : ¬ rejected status body) :
    ∃ res, send_body.res s status hs body content_type = .ok res
      ∧ res.base.find "Server"
          = some (trim ((last_named (hs.getD []) "Server").getD s.version_string))
      ∧ res.base.find "Content-Type"
          = some (trim ((last_named (hs.getD []) "Content-Type").getD
              (if empty content_type then "text/plain" else content_type)))
      ∧ (empty content_type = true → last_named (hs.getD []) "Content-Type" = none →
          res.base.find "Content-Type" = some "text/plain")
      ∧ res.base.find "Content-Length" = some (Nat.repr body.length)
      ∧ res.keep_alive = s.req_.keep_alive := by
  obtain ⟨res, hres, _, _, _, _, hka, hcl, hfr⟩ :=
    send_body_res_built s status hs body content_type hrej
  have hserver : res.base.find "Server"
      = some (trim ((last_named (hs.getD []) "Server").getD s.version_string)) := by
    rw [hfr "Server" (by decide) (by decide) (by decide), find_foldl_set]
    cases last_named (hs.getD []) "Server" with
    | some v => rfl
    | none =>
      simp only [Option.getD_none]
      rw [find_clear_chunked_ne _ _ (by decide),
        find_set_content_length_impl_ne _ _ _ (by decide), find_set_ne _ _ _ _ (by decide),
        find_set_self]
  have hct : res.base.find "Content-Type"
      = some (trim ((last_named (hs.getD []) "Content-Type").getD
          (if empty content_type then "text/plain" else content_type))) := by
    rw [hfr "Content-Type" (by decide) (by decide) (by decide), find_foldl_set]
    cases last_named (hs.getD []) "Content-Type" with
    | some v => rfl
    | none =>
      simp only [Option.getD_none]
      rw [find_clear_chunked_ne _ _ (by decide),
        find_set_content_length_impl_ne _ _ _ (by decide), find_set_self]
  refine ⟨res, hres, hserver, hct, ?_, hcl, hka⟩
  intro he hnone
  rw [hct, hnone, he]
  rfl

theorem send_body_header_precedence_witness :
    ¬ rejected 200 "{}"
      ∧ (send_body.res
            ⟨http_handler_mock, ⟨.get, "/", 11, ⟨[]⟩, ""⟩, "Boost.Beast/347"⟩ 200
            (some [("content-type", " application/json"), ("Content-Length", "999"),
              ("Connection", "close"), ("Server", "first"), ("SERVER", "scala")])
            "{}" "text/html").toOption.map
          (fun res => (res.base.list_, res.keep_alive))
          = some ([("content-type", "application/json"), ("SERVER", "scala"),
              ("Content-Length", "2")], true)
      ∧ ∃ res, send_body.res
            ⟨http_handler_mock, ⟨.get, "/", 11, ⟨[]⟩, ""⟩, "Boost.Beast/347"⟩ 200
            (some [("content-type", " application/json"), ("Content-Length", "999"),
              ("Connection", "close"), ("Server", "first"), ("SERVER", "scala")])
            "{}" "text/html" = .ok res
          ∧ res.base.find "Server"
              = some (trim ((last_named [("content-type", " application/json"),
                  ("Content-Length", "999"), ("Connection", "close"), ("Server", "first"),
                  ("SERVER", "scala")] "Server").getD "Boost.Beast/347"))
          ∧ res.base.find "Content-Type"
              = some (trim ((last_named [("content-type", " application/json"),
                  ("Content-Length", "999"), ("Connection", "close"), ("Server", "first"),
                  ("SERVER", "scala")] "Content-Type").getD
                    (if empty "text/html" then "text/plain" else "text/html")))
          ∧ (empty "text/html" = true →
              last_named [("content-type", " application/json"),
                  ("Content-Length", "999"), ("Connection", "close"), ("Server", "first"),
                  ("SERVER", "scala")] "Content-Type" = none →
              res.base.find "Content-Type" = some "text/plain")
          ∧ res.base.find "Content-Length" = some (Nat.repr "{}".length)
          ∧ res.keep_alive
              = (request.mk .get "/" 11 ⟨[]⟩ "").keep_alive :=
  ⟨by decide, by decide,
   send_body_header_precedence
     ⟨http_handler_mock, ⟨.get, "/", 11, ⟨[]⟩, ""⟩, "Boost.Beast/347"⟩ 200
     (some [("content-type", " application/json"), ("Content-Length", "999"),
       ("Connection", "close"), ("Server", "first"), ("SERVER", "scala")])
     "{}" "text/html" (by decide)⟩

/-! ## Method dispatch -/

theorem business_calls_append (a b : List effect) :
    business_calls (a ++ b) = business_calls a ++ business_calls b := by
  induction a with
  | nil => rfl
  | cons e a ih =>
    cases e with
    | handler c => cases c <;> simp [business_calls, ih]
    | expires_after n => simpa [business_calls] using ih
    | async_read => simpa [business_calls] using ih
    | async_write m k => simpa [business_calls] using ih
    | shutdown_send => simpa [business_calls] using ih
    | cerr w ec => simpa [business_calls] using ih

theorem writes_append (a b : List effect) : writes (a ++ b) = writes a ++ writes b := by
  induction a with
  | nil => rfl
  | cons e a ih => cases e <;> simp [writes, ih]

theorem business_calls_after (calls : List effect) (r : Except String response) :
    business_calls (outcome.after calls (r.map send_response)).effects
      = business_calls calls := by
  cases r with
  | error e => rfl
  | ok res =>
    simp only [Except.map, outcome.after, business_calls_append, send_response]
    simp [business_calls]

theorem business_calls_run_callbacks (s : http_session) (rs : List get_r) :
    ∀ calls : List effect,
      business_calls (run_callbacks s calls rs).effects = business_calls calls := by
  induction rs with
  | nil => intro calls; rfl
  | cons r rs ih =>
    intro calls
    unfold run_callbacks
    unfold send_body
    cases send_body.res s r.status r.headers r.body r.content_type with
    | error e => rfl
    | ok res =>
      simp only [Except.map]
      rw [ih, business_calls_append]
      simp [send_response, business_calls]

theorem after_ok (calls : List effect) (res : response) :
    outcome.after calls ((Except.ok res : Except String response).map send_response)
      = ⟨calls ++ [.async_write res res.keep_alive], none⟩ := rfl

/-- The callbacks of `async_get`, when `prepare_payload` accepts every body:
one response per result, built by `send_body` from that result. -/
theorem run_callbacks_writes (s : http_session) (rs : List get_r)
    (hrej : ∀ r ∈ rs, ¬ rejected r.status r.body) : ∀ calls : List effect,
    (run_callbacks s calls rs).raised = none
      ∧ ∃ ws, writes (run_callbacks s calls rs).effects = writes calls ++ ws
        ∧ List.Forall₂
            (fun (r : get_r) (res : response) =>
              send_body.res s r.status r.headers r.body r.content_type = .ok res
                ∧ res.kind = .string_body ∧ res.result_ = to_status r.status
                ∧ res.body = r.body)
            rs ws := by
  induction rs with
  | nil => intro calls; exact ⟨rfl, [], by simp [run_callbacks], List.Forall₂.nil⟩
  | cons r rs ih =>
    intro calls
    obtain ⟨res, hres, hst, hb, hk, _⟩ :=
      send_body_res_built s r.status r.headers r.body r.content_type
        (hrej r (List.mem_cons_self _ _))
    unfold run_callbacks
    unfold send_body
    rw [hres]
    simp only [Except.map]
    obtain ⟨h1, ws, h2, h3⟩ := ih (fun x hx => hrej x (List.mem_cons_of_mem _ hx))
      (calls ++ send_response res)
    refine ⟨h1, res :: ws, ?_, List.Forall₂.cons ⟨hres, hk, hst, hb⟩ h3⟩
    rw [h2, writes_append]
    simp [send_response, writes]

theorem send_empty_res_built (s : http_session) (r : head_r) :
    ∃ res, header_only_response s r res := by
  unfold header_only_response send_empty.res
  simp only [set_headers_eq]
  rw [prepare_payload_ok]
  · exact ⟨_, rfl, rfl, rfl, rfl⟩
  · intro h
    exact absurd h.1 (by simp [response.payload_size, response.set_keep_alive, response.mk_,
      response.set, response.content_length])

theorem send_no_content_res_built (s : http_session) (r : put_r) :
    ∃ res, bodiless_response s r res := by
  unfold bodiless_response send_no_content.res
  simp only [set_headers_eq]
  rw [prepare_payload_ok]
  · exact ⟨_, rfl, rfl, rfl, rfl⟩
  · intro h
    exact absurd h.1 (by simp [response.payload_size, response.set_keep_alive, response.mk_,
      response.set])

theorem send_body_res_shape (s : http_session) (r : body_r) (h : ¬ rejected r.status r.body) :
    ∃ res, body_response s r res := by
  obtain ⟨res, hres, hst, hb, hk, _⟩ :=
    send_body_res_built s r.status r.headers r.body r.content_type h
  exact ⟨res, hres, hk, hst, hb⟩

/-- C11 fails on its last part at `POST /x` with `post` answering `(204, {},
"x", "text/plain")`: `post` is the one member function called, with the target
and the body of the request, but no response is built; `prepare_payload` raises
`std::invalid_argument`, which leaves `handle_request`. -/
theorem dispatch_without_response :
    handle_request
        ⟨{ http_handler_mock with
            post := fun _ _ _ => .ok ⟨204, some [], "x", "text/plain"⟩ },
          ⟨.post, "/x", 11, ⟨[]⟩, "data"⟩, "Boost.Beast/347"⟩
      = ⟨[.handler (.post "/x" "data")], some "invalid response body"⟩
      ∧ writes (handle_request
          ⟨{ http_handler_mock with
              post := fun _ _ _ => .ok ⟨204, some [], "x", "text/plain"⟩ },
            ⟨.post, "/x", 11, ⟨[]⟩, "data"⟩, "Boost.Beast/347"⟩).effects = [] := by
  decide

/-- C11, amended.  For every request with a supported method and a legal
target, `handle_request` calls exactly one member function of the handler
besides `use_async`, the one of the method (`async_get` for GET when
`use_async()` is true, `get` otherwise), with the target and, where the function
takes one, the body of the request.  When that function returns, the response
of the method's shape is built from its result and written: always for HEAD
(header-only) and PUT (bodiless); for OPTIONS, POST, DELETE and GET (body
response) unless `prepare_payload` refuses the body; for `async_get`, one body
response per result handed to the callback. -/
theorem method_dispatch (s : http_session) (hm : supported s.req_.method)
    (ht : legal_target s.req_.target) :
    (∃ c, expected_call s = some c ∧ business_calls (handle_request s).effects = [c])
      ∧ match s.req_.method with
        | .head =>
          ∀ r, s.http_handler_.head s.req_.target (get_headers s.req_) = .ok r →
            ∃ res, header_only_response s r res ∧ wrote s res
        | .put =>
          ∀ r, s.http_handler_.put s.req_.target s.req_.body (get_headers s.req_) = .ok r →
            ∃ res, bodiless_response s r res ∧ wrote s res
        | .options =>
          ∀ r, s.http_handler_.options s.req_.target s.req_.body (get_headers s.req_) = .ok r →
            ¬ rejected r.status r.body → ∃ res, body_response s r res ∧ wrote s res
        | .post =>
          ∀ r, s.http_handler_.post s.req_.target s.req_.body (get_headers s.req_) = .ok r →
            ¬ rejected r.status r.body → ∃ res, body_response s r res ∧ wrote s res
        | .delete_ =>
          ∀ r, s.http_handler_.delete_ s.req_.target s.req_.body (get_headers s.req_) = .ok r →
            ¬ rejected r.status r.body → ∃ res, body_response s r res ∧ wrote s res
        | .get =>
          if s.http_handler_.use_async = true then
            ∀ rs, s.http_handler_.async_get s.req_.target (get_headers s.req_) = ⟨rs, none⟩ →
              (∀ r ∈ rs, ¬ rejected r.status r.body) →
              (handle_request s).raised = none
                ∧ List.Forall₂ (body_response s) rs (writes (handle_request s).effects)
          else
            ∀ r, s.http_handler_.get s.req_.target (get_headers s.req_) = .ok r →
              ¬ rejected r.status r.body → ∃ res, body_response s r res ∧ wrote s res
        | _ => True := by
  obtain ⟨hn1, hn2⟩ := dispatch_reached s hm ht
  unfold wrote
  unfold supported at hm
  simp only [List.mem_cons, List.mem_singleton, List.not_mem_nil, or_false] at hm
  rcases hm with h | h | h | h | h | h
  · -- OPTIONS
    have e : handle_request s
        = match s.http_handler_.options s.req_.target s.req_.body (get_headers s.req_) with
          | .error m => ⟨[.handler (.options s.req_.target s.req_.body)], some m⟩
          | .ok r => outcome.after [.handler (.options s.req_.target s.req_.body)]
              (send_body s r.status r.headers r.body r.content_type) := by
      unfold handle_request
      simp only [if_neg hn1, if_neg hn2]
      simp only [h, if_true]
    simp only [h]
    refine ⟨⟨.options s.req_.target s.req_.body, by simp [expected_call, h], ?_⟩, ?_⟩
    · rw [e]
      cases s.http_handler_.options s.req_.target s.req_.body (get_headers s.req_) with
      | error m => simp [business_calls]
      | ok r => simp only []; unfold send_body; rw [business_calls_after]; simp [business_calls]
    · intro r hr hrej
      obtain ⟨res, hres⟩ := send_body_res_shape s r hrej
      refine ⟨res, hres, ?_⟩
      rw [e, hr]
      simp only []
      unfold send_body
      rw [hres.1, after_ok]
      exact ⟨rfl, by simp [writes]⟩
  · -- HEAD
    have e : handle_request s
        = match s.http_handler_.head s.req_.target (get_headers s.req_) with
          | .error m => ⟨[.handler (.head s.req_.target)], some m⟩
          | .ok r => outcome.after [.handler (.head s.req_.target)]
              (send_empty s r.status r.headers r.size r.content_type) := by
      unfold handle_request
      simp only [if_neg hn1, if_neg hn2]
      simp only [h, if_true, reduceCtorEq, if_false]
    simp only [h]
    refine ⟨⟨.head s.req_.target, by simp [expected_call, h], ?_⟩, ?_⟩
    · rw [e]
      cases s.http_handler_.head s.req_.target (get_headers s.req_) with
      | error m => simp [business_calls]
      | ok r => simp only []; unfold send_empty; rw [business_calls_after]; simp [business_calls]
    · intro r hr
      obtain ⟨res, hres⟩ := send_empty_res_built s r
      refine ⟨res, hres, ?_⟩
      rw [e, hr]
      simp only []
      unfold send_empty
      rw [hres.1, after_ok]
      exact ⟨rfl, by simp [writes]⟩
  · -- GET
    simp only [h]
    by_cases hu : s.http_handler_.use_async = true
    · have e : handle_request s = call_async_get s := by
        unfold handle_request
        simp only [if_neg hn1, if_neg hn2]
        simp only [h, if_true, reduceCtorEq, if_false, hu]
      simp only [hu, if_true]
      refine ⟨⟨.async_get s.req_.target, by simp [expected_call, h, hu], ?_⟩, ?_⟩
      · rw [e]
        unfold call_async_get
        simp only []
        rw [business_calls_run_callbacks]
        simp [business_calls]
      · intro rs hr hrej
        rw [e]
        unfold call_async_get
        simp only [hr]
        obtain ⟨h1, ws, h2, h3⟩ := run_callbacks_writes s rs hrej
          [.handler .use_async, .handler (.async_get s.req_.target)]
        rw [h1]
        refine ⟨rfl, ?_⟩
        rw [h2]
        simpa [writes] using h3
    · have e : handle_request s
          = match s.http_handler_.get s.req_.target (get_headers s.req_) with
            | .error m => ⟨[.handler .use_async, .handler (.get s.req_.target)], some m⟩
            | .ok r => outcome.after [.handler .use_async, .handler (.get s.req_.target)]
                (send_body s r.status r.headers r.body r.content_type) := by
        unfold handle_request
        simp only [if_neg hn1, if_neg hn2]
        simp only [h, if_true, reduceCtorEq, if_false, hu]
      simp only [hu, if_false]
      refine ⟨⟨.get s.req_.target, by simp [expected_call, h, hu], ?_⟩, ?_⟩
      · rw [e]
        cases s.http_handler_.get s.req_.target (get_headers s.req_) with
        | error m => simp [business_calls]
        | ok r => simp only []; unfold send_body; rw [business_calls_after]; simp [business_calls]
      · intro r hr hrej
        obtain ⟨res, hres⟩ := send_body_res_shape s r hrej
        refine ⟨res, hres, ?_⟩
        rw [e, hr]
        simp only []
        unfold send_body
        rw [hres.1, after_ok]
        exact ⟨rfl, by simp [writes]⟩
  · -- POST
    have e : handle_request s
        = match s.http_handler_.post s.req_.target s.req_.body (get_headers s.req_) with
          | .error m => ⟨[.handler (.post s.req_.target s.req_.body)], some m⟩
          | .ok r => outcome.after [.handler (.post s.req_.target s.req_.body)]
              (send_body s r.status r.headers r.body r.content_type) := by
      unfold handle_request
      simp only [if_neg hn1, if_neg hn2]
      simp only [h, if_true, reduceCtorEq, if_false]
    simp only [h]
    refine ⟨⟨.post s.req_.target s.req_.body, by simp [expected_call, h], ?_⟩, ?_⟩
    · rw [e]
      cases s.http_handler_.post s.req_.target s.req_.body (get_headers s.req_) with
      | error m => simp [business_calls]
      | ok r => simp only []; unfold send_body; rw [business_calls_after]; simp [business_calls]
    · intro r hr hrej
      obtain ⟨res, hres⟩ := send_body_res_shape s r hrej
      refine ⟨res, hres, ?_⟩
      rw [e, hr]
      simp only []
      unfold send_body
      rw [hres.1, after_ok]
      exact ⟨rfl, by simp [writes]⟩
  · -- PUT
    have e : handle_request s
        = match s.http_handler_.put s.req_.target s.req_.body (get_headers s.req_) with
          | .error m => ⟨[.handler (.put s.req_.target s.req_.body)], some m⟩
          | .ok r => outcome.after [.handler (.put s.req_.target s.req_.body)]
              (send_no_content s r.status r.headers) := by
      unfold handle_request
      simp only [if_neg hn1, if_neg hn2]
      simp only [h, if_true, reduceCtorEq, if_false]
    simp only [h]
    refine ⟨⟨.put s.req_.target s.req_.body, by simp [expected_call, h], ?_⟩, ?_⟩
    · rw [e]
      cases s.http_handler_.put s.req_.target s.req_.body (get_headers s.req_) with
      | error m => simp [business_calls]
      | ok r =>
        simp only []; unfold send_no_content; rw [business_calls_after]; simp [business_calls]
    · intro r hr
      obtain ⟨res, hres⟩ := send_no_content_res_built s r
      refine ⟨res, hres, ?_⟩
      rw [e, hr]
      simp only []
      unfold send_no_content
      rw [hres.1, after_ok]
      exact ⟨rfl, by simp [writes]⟩
  · -- DELETE
    have e : handle_request s
        = match s.http_handler_.delete_ s.req_.target s.req_.body (get_headers s.req_) with
          | .error m => ⟨[.handler (.delete_ s.req_.target s.req_.body)], some m⟩
          | .ok r => outcome.after [.handler (.delete_ s.req_.target s.req_.body)]
              (send_body s r.status r.headers r.body r.content_type) := by
      unfold handle_request
      simp only [if_neg hn1, if_neg hn2]
      simp only [h, if_true, reduceCtorEq, if_false]
    simp only [h]
    refine ⟨⟨.delete_ s.req_.target s.req_.body, by simp [expected_call, h], ?_⟩, ?_⟩
    · rw [e]
      cases s.http_handler_.delete_ s.req_.target s.req_.body (get_headers s.req_) with
      | error m => simp [business_calls]
      | ok r => simp only []; unfold send_body; rw [business_calls_after]; simp [business_calls]
    · intro r hr hrej
      obtain ⟨res, hres⟩ := send_body_res_shape s r hrej
      refine ⟨res, hres, ?_⟩
      rw [e, hr]
      simp only []
      unfold send_body
      rw [hres.1, after_ok]
      exact ⟨rfl, by simp [writes]⟩

theorem method_dispatch_witness :
    (supported verb.put ∧ legal_target "/x")
      ∧ handle_request
          ⟨http_handler_mock, ⟨.put, "/x", 11, ⟨[]⟩, "data"⟩, "Boost.Beast/347"⟩
        = ⟨[.handler (.put "/x" "data"),
            .async_write
              ⟨.empty_body, 404, 11,
                ⟨[("Server", "Boost.Beast/347"), ("Content-Length", "0")]⟩, ""⟩ true], none⟩
      ∧ (∃ c, expected_call
            ⟨http_handler_mock, ⟨.put, "/x", 11, ⟨[]⟩, "data"⟩, "Boost.Beast/347"⟩ = some c
          ∧ business_calls (handle_request
              ⟨http_handler_mock, ⟨.put, "/x", 11, ⟨[]⟩, "data"⟩, "Boost.Beast/347"⟩).effects
            = [c])
      ∧ ∀ r, http_handler_mock.put "/x" "data"
            (get_headers ⟨.put, "/x", 11, ⟨[]⟩, "data"⟩) = .ok r →
          ∃ res,
            bodiless_response
                ⟨http_handler_mock, ⟨.put, "/x", 11, ⟨[]⟩, "data"⟩, "Boost.Beast/347"⟩ r res
              ∧ wrote
                ⟨http_handler_mock, ⟨.put, "/x", 11, ⟨[]⟩, "data"⟩, "Boost.Beast/347"⟩ res :=
  have ht : legal_target "/x" := ⟨by decide, by decide, by decide⟩
  ⟨⟨by decide, ht⟩, by decide,
   method_dispatch
     ⟨http_handler_mock, ⟨.put, "/x", 11, ⟨[]⟩, "data"⟩, "Boost.Beast/347"⟩ (by decide) ht⟩

/-! ## Exceptions of the handler, with the callback of `async_get` -/

end httpserver
